import Mathlib

set_option maxRecDepth 100000

/-!
Verification of the video-generation pipeline's string-processing services.

Each definition below is a shallow embedding of a Python function from the
repository (file and function named in its doc comment).  Python strings are
modelled as `List Char` / `String` restricted to the character sets the
functions actually manipulate; `str.lower`, `str.strip` and the `re` patterns
are modelled at ASCII granularity, which is exact on every input considered
here.
-/

/-- Python `\s` / `str.strip()` whitespace, ASCII range. -/
def pyIsSpace (c : Char) : Bool :=
  c = ' ' || c = '\t' || c = '\n' || c = '\r' || c = '\x0b' || c = '\x0c'

/-- `str.lower` on one character (ASCII range). -/
def pyLowerChar (c : Char) : Char :=
  if 'A' ≤ c ∧ c ≤ 'Z' then Char.ofNat (c.toNat + 32) else c

/-- Characters kept by `re.sub(r'[^a-z0-9\s-]', '', ...)` besides whitespace
    and the hyphen: lower-case ASCII letters and digits. -/
def isLowerAlnum (c : Char) : Bool :=
  ('a' ≤ c && c ≤ 'z') || ('0' ≤ c && c ≤ '9')

/-- Drop the trailing run of characters satisfying `p` (the tail half of
    Python `str.strip`). -/
def dropTrailWhile (p : Char → Bool) : List Char → List Char
  | [] => []
  | c :: rest =>
    if (dropTrailWhile p rest).isEmpty && p c then []
    else c :: dropTrailWhile p rest

/-- `str.strip()` (default whitespace stripping) on a character list: drop the
    leading and the trailing whitespace run. -/
def stripWs (l : List Char) : List Char :=
  dropTrailWhile pyIsSpace (l.dropWhile pyIsSpace)

/-- `re.sub(r'[^a-z0-9\s-]', '', ...)`: keep letters, digits, whitespace, hyphen. -/
def keepAllowed (l : List Char) : List Char :=
  l.filter (fun c => isLowerAlnum c || pyIsSpace c || c = '-')

/-- `re.sub(r'\s+', '-', ...)`: each maximal whitespace run becomes one hyphen.
    The flag records whether we are inside a whitespace run already replaced. -/
def wsRunsToHyphens : List Char → Bool → List Char
  | [], _ => []
  | c :: rest, inRun =>
    if pyIsSpace c then
      if inRun then wsRunsToHyphens rest true
      else '-' :: wsRunsToHyphens rest true
    else c :: wsRunsToHyphens rest false

/-- `re.sub(r'-+', '-', ...)`: each maximal hyphen run becomes one hyphen. -/
def hyphenRunsCollapse : List Char → Bool → List Char
  | [], _ => []
  | c :: rest, inRun =>
    if c = '-' then
      if inRun then hyphenRunsCollapse rest true
      else '-' :: hyphenRunsCollapse rest true
    else c :: hyphenRunsCollapse rest false

/-- `str.strip('-')`: drop the leading and the trailing hyphen run. -/
def stripHyphens (l : List Char) : List Char :=
  dropTrailWhile (fun c => c = '-') (l.dropWhile (fun c => c = '-'))

/-- The normalisation pipeline of `normalize_prompt` before the final
    200-character truncation (`services/cache_service.py`, lines 31-42). -/
def normalizePre (l : List Char) : List Char :=
  stripHyphens
    (hyphenRunsCollapse
      (wsRunsToHyphens (keepAllowed (stripWs (l.map pyLowerChar))) false) false)

/-- `normalize_prompt` from `services/cache_service.py` (lines 17-48):
    lower-case and strip, drop characters outside `[a-z0-9\s-]`, turn
    whitespace runs into hyphens, collapse hyphen runs, strip hyphens,
    truncate to 200 characters.  Empty input short-circuits to `""`. -/
def normalize_prompt (p : String) : String :=
  if p = "" then "" else ⟨(normalizePre p.toList).take 200⟩

/-- Whether a character list ends in a hyphen. -/
def lastIsHyphen (l : List Char) : Bool :=
  l.getLast? == some '-'

/-- Characters that can appear in the output of the normalisation pipeline:
    lower-case alphanumerics and the hyphen. -/
def goodChar (c : Char) : Bool := isLowerAlnum c || c = '-'

/-- No two adjacent hyphens (the post-condition of `re.sub(r'-+', '-', ...)`). -/
def noDD : List Char → Bool
  | [] => true
  | [_] => true
  | a :: b :: t => !(a = '-' && b = '-') && noDD (b :: t)

lemma isLowerAlnum_not_space {c : Char} (h : isLowerAlnum c = true) :
    pyIsSpace c = false := by
  cases hs : pyIsSpace c
  · rfl
  · exfalso
    simp only [pyIsSpace, Bool.or_eq_true, decide_eq_true_eq] at hs
    rcases hs with (((((h' | h') | h') | h') | h') | h') <;>
      rw [h'] at h <;> exact absurd h (by decide)

lemma goodChar_not_space {c : Char} (h : goodChar c = true) : pyIsSpace c = false := by
  simp only [goodChar, Bool.or_eq_true, decide_eq_true_eq] at h
  rcases h with h | h
  · exact isLowerAlnum_not_space h
  · rw [h]; decide

lemma goodChar_lower_eq {c : Char} (h : goodChar c = true) : pyLowerChar c = c := by
  unfold pyLowerChar
  rw [if_neg]
  rintro ⟨hA, hZ⟩
  simp only [goodChar, isLowerAlnum, Bool.or_eq_true, Bool.and_eq_true,
    decide_eq_true_eq] at h
  rcases h with (⟨h1, h2⟩ | ⟨h1, h2⟩) | h
  · exact absurd (le_trans h1 hZ) (by decide)
  · exact absurd (le_trans hA h2) (by decide)
  · subst h; exact absurd hA (by decide)

lemma goodChar_keep {c : Char} (h : goodChar c = true) :
    (isLowerAlnum c || pyIsSpace c || decide (c = '-')) = true := by
  simp only [goodChar, Bool.or_eq_true, decide_eq_true_eq] at h ⊢
  rcases h with h | h
  · exact Or.inl (Or.inl h)
  · exact Or.inr h

lemma mem_dropTrailWhile {p : Char → Bool} {l : List Char} {c : Char}
    (h : c ∈ dropTrailWhile p l) : c ∈ l := by
  induction l with
  | nil => simp [dropTrailWhile] at h
  | cons a rest ih =>
    rw [dropTrailWhile] at h
    split at h
    · exact absurd h (List.not_mem_nil c)
    · rcases List.mem_cons.mp h with h | h
      · exact h ▸ List.mem_cons_self a rest
      · exact List.mem_cons_of_mem a (ih h)

lemma head?_dropTrailWhile {p : Char → Bool} {l : List Char} {c : Char}
    (h : (dropTrailWhile p l).head? = some c) : l.head? = some c := by
  induction l with
  | nil => simp [dropTrailWhile] at h
  | cons a rest ih =>
    rw [dropTrailWhile] at h
    split at h
    · simp at h
    · simpa using h

lemma getLast?_dropTrailWhile {p : Char → Bool} {l : List Char} {c : Char}
    (h : (dropTrailWhile p l).getLast? = some c) : p c = false := by
  induction l with
  | nil => simp [dropTrailWhile] at h
  | cons a rest ih =>
    rw [dropTrailWhile] at h
    split at h
    · simp at h
    · rename_i hcond
      cases hr : dropTrailWhile p rest with
      | nil =>
        rw [hr] at h hcond
        simp only [List.getLast?_singleton, Option.some.injEq] at h
        simp only [List.isEmpty_nil, Bool.true_and] at hcond
        subst h
        exact Bool.eq_false_iff.mpr hcond
      | cons b t =>
        rw [hr] at h
        rw [List.getLast?_cons_cons] at h
        exact ih (hr ▸ h)

lemma dropTrailWhile_eq_self {p : Char → Bool} {l : List Char}
    (h : ∀ c, l.getLast? = some c → p c = false) : dropTrailWhile p l = l := by
  induction l with
  | nil => rfl
  | cons a rest ih =>
    cases hr : rest with
    | nil =>
      subst hr
      have hpa : p a = false := h a (by simp)
      simp [dropTrailWhile, hpa]
    | cons b t =>
      subst hr
      have hrest : dropTrailWhile p (b :: t) = b :: t := by
        apply ih
        intro c hc
        apply h
        rw [List.getLast?_cons_cons]
        exact hc
      rw [dropTrailWhile, hrest]
      simp

lemma dropWhile_eq_self_of_head {p : Char → Bool} {l : List Char}
    (h : ∀ c, l.head? = some c → p c = false) : l.dropWhile p = l := by
  cases l with
  | nil => rfl
  | cons a rest => simp [List.dropWhile_cons, h a rfl]

lemma head?_dropWhile {p : Char → Bool} {l : List Char} {c : Char}
    (h : (l.dropWhile p).head? = some c) : p c = false := by
  induction l with
  | nil => simp at h
  | cons a rest ih =>
    rw [List.dropWhile_cons] at h
    split at h
    · exact ih h
    · simp only [List.head?_cons, Option.some.injEq] at h
      subst h
      rename_i hcond
      exact Bool.eq_false_iff.mpr hcond

lemma mem_wsRunsToHyphens {l : List Char} {b : Bool} {c : Char}
    (h : c ∈ wsRunsToHyphens l b) : c = '-' ∨ (c ∈ l ∧ pyIsSpace c = false) := by
  induction l generalizing b with
  | nil => simp [wsRunsToHyphens] at h
  | cons a rest ih =>
    rw [wsRunsToHyphens] at h
    split at h
    · split at h
      · rcases ih h with h' | ⟨h1, h2⟩
        · exact Or.inl h'
        · exact Or.inr ⟨List.mem_cons_of_mem a h1, h2⟩
      · rcases List.mem_cons.mp h with h' | h'
        · exact Or.inl h'
        · rcases ih h' with h'' | ⟨h1, h2⟩
          · exact Or.inl h''
          · exact Or.inr ⟨List.mem_cons_of_mem a h1, h2⟩
    · rcases List.mem_cons.mp h with h' | h'
      · subst h'
        rename_i hcond
        exact Or.inr ⟨List.mem_cons_self c rest, Bool.eq_false_iff.mpr hcond⟩
      · rcases ih h' with h'' | ⟨h1, h2⟩
        · exact Or.inl h''
        · exact Or.inr ⟨List.mem_cons_of_mem a h1, h2⟩

lemma wsRunsToHyphens_eq_self {l : List Char} (h : ∀ c ∈ l, pyIsSpace c = false) :
    ∀ b, wsRunsToHyphens l b = l := by
  induction l with
  | nil => intro b; rfl
  | cons a rest ih =>
    intro b
    rw [wsRunsToHyphens, if_neg]
    · rw [ih (fun c hc => h c (List.mem_cons_of_mem a hc))]
    · rw [h a (List.mem_cons_self a rest)]; simp

lemma mem_hyphenRunsCollapse {l : List Char} {b : Bool} {c : Char}
    (h : c ∈ hyphenRunsCollapse l b) : c ∈ l := by
  induction l generalizing b with
  | nil => simp [hyphenRunsCollapse] at h
  | cons a rest ih =>
    rw [hyphenRunsCollapse] at h
    split at h
    · rename_i hcond
      split at h
      · exact List.mem_cons_of_mem a (ih h)
      · rcases List.mem_cons.mp h with h' | h'
        · rw [h', ← hcond]; exact List.mem_cons_self a rest
        · exact List.mem_cons_of_mem a (ih h')
    · rcases List.mem_cons.mp h with h' | h'
      · exact h' ▸ List.mem_cons_self a rest
      · exact List.mem_cons_of_mem a (ih h')

lemma noDD_tail {a : Char} {l : List Char} (h : noDD (a :: l) = true) :
    noDD l = true := by
  cases l with
  | nil => rfl
  | cons b t =>
    rw [noDD] at h
    exact (Bool.and_eq_true_iff.mp h).2

lemma noDD_head {l : List Char} (h : noDD ('-' :: l) = true) :
    l.head? ≠ some '-' := by
  cases l with
  | nil => simp
  | cons b t =>
    rw [noDD] at h
    have := (Bool.and_eq_true_iff.mp h).1
    simp only [List.head?_cons, ne_eq, Option.some.injEq]
    intro hb
    rw [hb] at this
    simp at this

lemma noDD_cons {a : Char} {l : List Char} (h1 : noDD l = true)
    (h2 : a = '-' → l.head? ≠ some '-') : noDD (a :: l) = true := by
  cases l with
  | nil => rfl
  | cons b t =>
    rw [noDD, Bool.and_eq_true_iff]
    refine ⟨?_, h1⟩
    simp only [Bool.not_eq_eq_eq_not, Bool.not_true, Bool.and_eq_false_iff]
    by_cases ha : a = '-'
    · right
      have := h2 ha
      simp only [List.head?_cons, ne_eq, Option.some.injEq] at this
      simp [this]
    · left; simp [ha]

lemma noDD_hyphenRunsCollapse : ∀ (l : List Char) (b : Bool),
    noDD (hyphenRunsCollapse l b) = true ∧
      (b = true → (hyphenRunsCollapse l b).head? ≠ some '-') := by
  intro l
  induction l with
  | nil => intro b; exact ⟨rfl, by simp [hyphenRunsCollapse]⟩
  | cons a rest ih =>
    intro b
    rw [hyphenRunsCollapse]
    by_cases ha : a = '-'
    · rw [if_pos (by simp [ha])]
      cases b with
      | true => exact ⟨(ih true).1, fun _ => (ih true).2 rfl⟩
      | false =>
        simp only [if_neg (Bool.false_ne_true)]
        refine ⟨noDD_cons (ih true).1 (fun _ => (ih true).2 rfl), by simp⟩
    · rw [if_neg (by simp [ha])]
      refine ⟨noDD_cons (ih false).1 (fun h => absurd h ha), ?_⟩
      intro _
      simp only [List.head?_cons, ne_eq, Option.some.injEq]
      exact ha

lemma hyphenRunsCollapse_eq_self {l : List Char} (hdd : noDD l = true) :
    ∀ b, (b = true → l.head? ≠ some '-') → hyphenRunsCollapse l b = l := by
  induction l with
  | nil => intro b _; rfl
  | cons a rest ih =>
    intro b hb
    rw [hyphenRunsCollapse]
    by_cases ha : a = '-'
    · cases b with
      | true => exact absurd (by simp [ha]) (hb rfl)
      | false =>
        rw [if_pos (by simp [ha]), if_neg (Bool.false_ne_true), ha]
        congr 1
        apply ih (noDD_tail hdd) true
        intro _
        exact noDD_head (ha ▸ hdd)
    · rw [if_neg (by simp [ha])]
      congr 1
      exact ih (noDD_tail hdd) false (fun h => absurd h Bool.false_ne_true)

lemma head?_take {l : List Char} {n : Nat} {c : Char}
    (h : (l.take n).head? = some c) : l.head? = some c := by
  cases l with
  | nil => simp at h
  | cons a rest =>
    cases n with
    | zero => simp at h
    | succ m => simpa using h

lemma noDD_take : ∀ (n : Nat) (l : List Char), noDD l = true →
    noDD (l.take n) = true := by
  intro n l
  induction l generalizing n with
  | nil => intro _; simp [noDD]
  | cons a rest ih =>
    intro h
    cases n with
    | zero => rfl
    | succ m =>
      rw [List.take_succ_cons]
      apply noDD_cons (ih m (noDD_tail h))
      intro ha hh
      exact noDD_head (ha ▸ h) (head?_take hh)

lemma noDD_dropWhile {p : Char → Bool} {l : List Char} (h : noDD l = true) :
    noDD (l.dropWhile p) = true := by
  induction l with
  | nil => rfl
  | cons a rest ih =>
    rw [List.dropWhile_cons]
    split
    · exact ih (noDD_tail h)
    · exact h

lemma noDD_dropTrailWhile {p : Char → Bool} {l : List Char} (h : noDD l = true) :
    noDD (dropTrailWhile p l) = true := by
  induction l with
  | nil => rfl
  | cons a rest ih =>
    rw [dropTrailWhile]
    split
    · rfl
    · apply noDD_cons (ih (noDD_tail h))
      intro ha hh
      exact noDD_head (ha ▸ h) (head?_dropTrailWhile hh)

lemma mem_normalizePre {l : List Char} {c : Char} (h : c ∈ normalizePre l) :
    goodChar c = true := by
  unfold normalizePre stripHyphens at h
  have h1 := List.Sublist.mem (mem_dropTrailWhile h) (List.dropWhile_sublist _)
  have h2 := mem_hyphenRunsCollapse h1
  rcases mem_wsRunsToHyphens h2 with h3 | ⟨h3, h4⟩
  · simp [goodChar, h3]
  · have h5 := List.mem_filter.mp h3
    have := h5.2
    simp only [Bool.or_eq_true, decide_eq_true_eq] at this
    rcases this with (ha | hs) | hd
    · simp [goodChar, ha]
    · rw [h4] at hs; exact absurd hs (by simp)
    · simp [goodChar, hd]

lemma noDD_normalizePre (l : List Char) : noDD (normalizePre l) = true := by
  unfold normalizePre stripHyphens
  exact noDD_dropTrailWhile (noDD_dropWhile (noDD_hyphenRunsCollapse _ false).1)

lemma head?_normalizePre {l : List Char} {c : Char}
    (h : (normalizePre l).head? = some c) : c ≠ '-' := by
  unfold normalizePre stripHyphens at h
  have := head?_dropWhile (head?_dropTrailWhile h)
  simpa using this

lemma getLast?_normalizePre {l : List Char} {c : Char}
    (h : (normalizePre l).getLast? = some c) : c ≠ '-' := by
  unfold normalizePre stripHyphens at h
  have := getLast?_dropTrailWhile h
  simpa using this

lemma normalizePre_eq_self {l : List Char}
    (hg : ∀ c ∈ l, goodChar c = true) (hdd : noDD l = true)
    (hh : ∀ c, l.head? = some c → c ≠ '-')
    (hl : ∀ c, l.getLast? = some c → c ≠ '-') :
    normalizePre l = l := by
  unfold normalizePre
  have hmap : l.map pyLowerChar = l := by
    conv_rhs => rw [← List.map_id l]
    exact List.map_congr_left (fun c hc => goodChar_lower_eq (hg c hc))
  rw [hmap]
  have hstrip : stripWs l = l := by
    unfold stripWs
    have hd : l.dropWhile pyIsSpace = l :=
      dropWhile_eq_self_of_head (fun c hc =>
        goodChar_not_space (hg c (List.mem_of_mem_head? hc)))
    rw [hd]
    exact dropTrailWhile_eq_self (fun c hc =>
      goodChar_not_space (hg c (List.mem_of_getLast?_eq_some hc)))
  rw [hstrip]
  have hkeep : keepAllowed l = l :=
    List.filter_eq_self.mpr (fun c hc => goodChar_keep (hg c hc))
  rw [hkeep]
  have hws : wsRunsToHyphens l false = l :=
    wsRunsToHyphens_eq_self (fun c hc => goodChar_not_space (hg c hc)) false
  rw [hws]
  have hcol : hyphenRunsCollapse l false = l :=
    hyphenRunsCollapse_eq_self hdd false (fun h => absurd h Bool.false_ne_true)
  rw [hcol]
  unfold stripHyphens
  have hd : l.dropWhile (fun c => c = '-') = l := by
    apply dropWhile_eq_self_of_head
    intro c hc
    simp only [decide_eq_false_iff_not]
    exact hh c hc
  rw [hd]
  apply dropTrailWhile_eq_self
  intro c hc
  simp only [decide_eq_false_iff_not]
  exact hl c hc

/-- The claim's notion of an all-punctuation prompt: after lowering, no
    character lies in `[a-z0-9 -]`. -/
def allPunctuation (p : String) : Bool :=
  p.toList.all fun c =>
    !isLowerAlnum (pyLowerChar c) && !(pyLowerChar c == ' ') && !(pyLowerChar c == '-')

/-- A 201-character prompt (101 `a`s separated by single spaces) whose
    normalisation is cut by the 200-character truncation right after a
    hyphen. -/
def cexRepeatedPromptA : String := String.intercalate " " (List.replicate 101 "a")

/-- A second such prompt, built from `b`s. -/
def cexRepeatedPromptB : String := String.intercalate " " (List.replicate 101 "b")

/-- C2 counterexample: `normalize_prompt` is not idempotent on the concrete
    201-character prompt `"a a ... a"`; its normalisation is truncated to 200
    characters ending in a hyphen, which a second application strips. -/
theorem normalize_prompt_not_idempotent :
    normalize_prompt (normalize_prompt cexRepeatedPromptA) ≠
      normalize_prompt cexRepeatedPromptA := by decide

lemma normalize_prompt_empty : normalize_prompt "" = "" := by decide

/-- C2 (amended): `normalize_prompt` is idempotent on every prompt whose
    normalisation does not end in a hyphen (the only exception the truncation
    can create). -/
theorem normalize_prompt_idem (p : String)
    (h : lastIsHyphen (normalize_prompt p).toList = false) :
    normalize_prompt (normalize_prompt p) = normalize_prompt p := by
  by_cases hp : p = ""
  · subst hp; rfl
  · have hnorm : normalize_prompt p = ⟨(normalizePre p.toList).take 200⟩ := by
      rw [normalize_prompt, if_neg hp]
    rw [hnorm] at h ⊢
    by_cases hempty : (⟨(normalizePre p.toList).take 200⟩ : String) = ""
    · rw [hempty]; exact normalize_prompt_empty
    · rw [normalize_prompt, if_neg hempty]
      have htl : (String.mk ((normalizePre p.toList).take 200)).toList =
          (normalizePre p.toList).take 200 := rfl
      rw [htl] at h ⊢
      have hg : ∀ c ∈ (normalizePre p.toList).take 200, goodChar c = true :=
        fun c hc => mem_normalizePre (List.take_subset _ _ hc)
      have hpre : normalizePre ((normalizePre p.toList).take 200) =
          (normalizePre p.toList).take 200 := by
        apply normalizePre_eq_self hg
        · exact noDD_take 200 _ (noDD_normalizePre _)
        · exact fun c hc => head?_normalizePre (head?_take hc)
        · intro c hc hcontra
          rw [lastIsHyphen, hc, hcontra] at h
          simp at h
      rw [hpre, List.take_of_length_le (List.length_take_le _ _)]

/-- C2 witness: the claim's concrete example, on which the amended statement
    applies (its normalisation has no trailing hyphen). -/
theorem normalize_prompt_idem_witness :
    normalize_prompt "Explain  Photosynthesis!!!" = "explain-photosynthesis" ∧
      normalize_prompt (normalize_prompt "Explain  Photosynthesis!!!") =
        normalize_prompt "Explain  Photosynthesis!!!" :=
  ⟨by decide, normalize_prompt_idem "Explain  Photosynthesis!!!" (by decide)⟩

/-- C3 counterexample: the normalisation of the concrete 201-character prompt
    `"b b ... b"` ends in a hyphen, because `strip('-')` runs before the
    200-character truncation. -/
theorem normalize_prompt_trailing_hyphen_cex :
    lastIsHyphen (normalize_prompt cexRepeatedPromptB).toList = true := by decide

/-- C3 (amended): `normalize_prompt` output is at most 200 characters and
    never begins with a hyphen; it can end with a hyphen only when the
    200-character truncation actually cut the string; and an input with no
    characters in `[a-z0-9 -]` after lowering normalises to `""`. -/
theorem normalize_prompt_shape (p : String) :
    (normalize_prompt p).toList.length ≤ 200 ∧
    (∀ c, (normalize_prompt p).toList.head? = some c → c ≠ '-') ∧
    (lastIsHyphen (normalize_prompt p).toList = true →
      200 < (normalizePre p.toList).length) ∧
    (allPunctuation p = true → normalize_prompt p = "") := by
  by_cases hp : p = ""
  · subst hp
    rw [normalize_prompt_empty]
    refine ⟨by simp, by simp, ?_, fun _ => normalize_prompt_empty⟩
    intro h
    simp [lastIsHyphen] at h
  · have hnorm : normalize_prompt p = ⟨(normalizePre p.toList).take 200⟩ := by
      rw [normalize_prompt, if_neg hp]
    rw [hnorm]
    have htl : (String.mk ((normalizePre p.toList).take 200)).toList =
        (normalizePre p.toList).take 200 := rfl
    rw [htl]
    refine ⟨List.length_take_le _ _, ?_, ?_, ?_⟩
    · exact fun c hc => head?_normalizePre (head?_take hc)
    · intro hlast
      by_contra hle
      push_neg at hle
      rw [List.take_of_length_le hle, lastIsHyphen, beq_iff_eq] at hlast
      exact getLast?_normalizePre hlast rfl
    · intro hpunct
      have hL : ∀ c ∈ p.toList.map pyLowerChar,
          isLowerAlnum c = false ∧ c ≠ ' ' ∧ c ≠ '-' := by
        intro c hc
        rcases List.mem_map.mp hc with ⟨c0, hc0, rfl⟩
        have := List.all_eq_true.mp hpunct c0 hc0
        simp only [Bool.and_eq_true, Bool.not_eq_eq_eq_not, Bool.not_true,
          beq_eq_false_iff_ne, ne_eq] at this
        exact ⟨this.1.1, this.1.2, this.2⟩
      have hkept : ∀ c ∈ keepAllowed (stripWs (p.toList.map pyLowerChar)),
          pyIsSpace c = true := by
        intro c hc
        have hmem := List.mem_filter.mp hc
        have hin : c ∈ p.toList.map pyLowerChar := by
          have := hmem.1
          unfold stripWs at this
          exact List.Sublist.mem (mem_dropTrailWhile this) (List.dropWhile_sublist _)
        have hfacts := hL c hin
        have hpred := hmem.2
        simp only [Bool.or_eq_true, decide_eq_true_eq] at hpred
        rcases hpred with (ha | hs) | hd
        · rw [hfacts.1] at ha; exact absurd ha (by simp)
        · exact hs
        · exact absurd hd hfacts.2.2
      have hall : ∀ c ∈ hyphenRunsCollapse
          (wsRunsToHyphens (keepAllowed (stripWs (p.toList.map pyLowerChar))) false)
          false, c = '-' := by
        intro c hc
        rcases mem_wsRunsToHyphens (mem_hyphenRunsCollapse hc) with h' | ⟨h1, h2⟩
        · exact h'
        · rw [hkept c h1] at h2; exact absurd h2 (by simp)
      have hnil : normalizePre p.toList = [] := by
        unfold normalizePre stripHyphens
        rw [List.dropWhile_eq_nil_iff.mpr (by
          intro x hx
          simp only [decide_eq_true_eq]
          exact hall x hx)]
        rfl
      rw [hnil]
      rfl

/-- C3 witness: the amended statement applied to the all-punctuation prompt
    `"!!!"`, which normalises to the empty string. -/
theorem normalize_prompt_shape_witness : normalize_prompt "!!!" = "" :=
  (normalize_prompt_shape "!!!").2.2.2 (by decide)

/-- Python `pat in s` (substring test). -/
def containsL (pat : List Char) : List Char → Bool
  | [] => pat.isEmpty
  | c :: rest => pat.isPrefixOf (c :: rest) || containsL pat rest

/-- Python `pat in s` on strings. -/
def pyContains (s pat : String) : Bool := containsL pat.toList s.toList

/-- Worker for Python `str.replace` (all non-overlapping occurrences, leftmost
    first).  The counter skips over the tail of an occurrence that has already
    been replaced. -/
def replaceAllGo (pat repl : List Char) : Nat → List Char → List Char
  | _, [] => []
  | k + 1, _ :: rest => replaceAllGo pat repl k rest
  | 0, c :: rest =>
    if pat.isPrefixOf (c :: rest) then
      repl ++ replaceAllGo pat repl (pat.length - 1) rest
    else c :: replaceAllGo pat repl 0 rest

/-- Python `s.replace(pat, repl)`.  The source never passes an empty pattern,
    whose Python interleaving behaviour is therefore not modelled. -/
def pyReplace (s pat repl : String) : String :=
  if pat = "" then s else ⟨replaceAllGo pat.toList repl.toList 0 s.toList⟩

/-- The fragment of Python regular expressions used by this repository:
    literals, greedy `C*` / `C+` / `C?` over a character class. -/
inductive RE where
  | lit : List Char → RE
  | star : (Char → Bool) → RE
  | plus : (Char → Bool) → RE
  | opt : (Char → Bool) → RE

/-- Greedy matching of one regex atom; returns the remaining suffix. -/
def matchOne : RE → List Char → Option (List Char)
  | .lit pat, s => if pat.isPrefixOf s then some (s.drop pat.length) else none
  | .star p, s => some (s.dropWhile p)
  | .plus _, [] => none
  | .plus p, c :: rest => if p c then some (rest.dropWhile p) else none
  | .opt _, [] => some []
  | .opt p, c :: rest => if p c then some rest else some (c :: rest)

/-- Greedy matching of a regex sequence; returns the remaining suffix.
    For every pattern below, the character class of each greedy atom is
    disjoint from the first-set of its successor, so greedy matching agrees
    with Python's backtracking semantics. -/
def matchSeq : List RE → List Char → Option (List Char)
  | [], s => some s
  | r :: rs, s =>
    match matchOne r s with
    | some rest => matchSeq rs rest
    | none => none

/-- Worker for `re.sub`: scan left to right, replace each (non-overlapping)
    leftmost match.  `rf` maps the matched text to its replacement, which
    also covers backreference replacements like `\1...`.  When `onlyFirst`
    is set the scan stops after one replacement (`count=1`).  Every pattern
    used below starts with a non-empty literal, so matches are non-empty. -/
def subGo (pat : List RE) (rf : List Char → List Char) (onlyFirst : Bool) :
    Nat → List Char → List Char
  | _, [] => []
  | k + 1, _ :: rest => subGo pat rf onlyFirst k rest
  | 0, c :: rest =>
    match matchSeq pat (c :: rest) with
    | some remaining =>
      if onlyFirst then
        rf ((c :: rest).take ((c :: rest).length - remaining.length)) ++ remaining
      else
        rf ((c :: rest).take ((c :: rest).length - remaining.length)) ++
          subGo pat rf onlyFirst ((c :: rest).length - remaining.length - 1) rest
    | none => c :: subGo pat rf onlyFirst 0 rest

/-- `re.sub(pat, repl, s)` with a constant replacement string. -/
def subAll (pat : List RE) (repl : List Char) (l : List Char) : List Char :=
  subGo pat (fun _ => repl) false 0 l

/-- `re.sub(pat, r'\1' ++ suffixed text, s)` keeping the whole match. -/
def subAllKeep (pat : List RE) (extra : List Char) (l : List Char) : List Char :=
  subGo pat (fun m => m ++ extra) false 0 l

/-- `re.sub(pat, r'\1' ++ suffixed text, s, count=1)`. -/
def subFirstKeep (pat : List RE) (extra : List Char) (l : List Char) : List Char :=
  subGo pat (fun m => m ++ extra) true 0 l

/-- The character class `[^,)]`. -/
def notCommaParen (c : Char) : Bool := !(c = ',' || c = ')')

/-- The character class `[^)]`. -/
def notParen (c : Char) : Bool := !(c = ')')

/-- The character class `[^"]`. -/
def notQuote (c : Char) : Bool := !(c = '"')

/-- The character class `[^\n]`. -/
def notNl (c : Char) : Bool := !(c = '\n')

/-- The character class of a single comma (`,?` / `,`). -/
def isComma (c : Char) : Bool := c = ','

/-- The module's default voice id (`code_utils.py`, line 34). -/
def defaultVoiceId : String := "pqHfZKP75CvOlQylNhV4"

/-- `voice_id or "pqHfZKP75CvOlQylNhV4"`: Python falsiness makes an absent or
    empty id fall back to the default. -/
def selectVoiceId (voiceId : Option String) : String :=
  match voiceId with
  | none => defaultVoiceId
  | some v => if v = "" then defaultVoiceId else v

/-- `remove_transcription_params` from `services/code_utils.py` (lines 18-112):
    the seven `re.sub` passes over the code, in source order.  The selected
    voice id is interpolated verbatim into patterns 4b/4c; they are modelled
    as literals, which is exact whenever the id contains no regex
    metacharacter (the ids used are alphanumeric). -/
def remove_transcription_params (code : String) (voiceId : Option String) : String :=
  let sel := (selectVoiceId voiceId).toList
  let s1 := subAll
    [.lit "ElevenLabsService(".toList, .star pyIsSpace,
     .lit "transcription_model".toList, .star pyIsSpace, .lit "=".toList,
     .star pyIsSpace, .plus notCommaParen, .star pyIsSpace, .opt isComma,
     .star pyIsSpace]
    "ElevenLabsService(".toList code.toList
  let s2 := subAll
    [.lit "ElevenLabsService(".toList, .star pyIsSpace, .lit "voice_id".toList,
     .star pyIsSpace, .lit "=".toList, .star pyIsSpace, .plus notCommaParen]
    ("ElevenLabsService(voice_id=\"".toList ++ sel ++ "\"".toList) s1
  let s3 := subAll
    [.lit "ElevenLabsService(".toList, .star pyIsSpace, .lit "voice_name".toList,
     .star pyIsSpace, .lit "=".toList, .star pyIsSpace, .plus notCommaParen,
     .star pyIsSpace, .opt isComma, .star pyIsSpace]
    "ElevenLabsService(".toList s2
  let s4 := subAll
    [.lit "ElevenLabsService(".toList, .star pyIsSpace, .opt isComma,
     .star pyIsSpace, .lit ")".toList]
    ("ElevenLabsService(voice_id=\"".toList ++ sel ++
      "\", transcription_model=None)".toList) s3
  let s4b := subAll
    [.lit ("ElevenLabsService(voice_id=\"".toList ++ sel ++ "\")".toList)]
    ("ElevenLabsService(voice_id=\"".toList ++ sel ++
      "\", transcription_model=None)".toList) s4
  let s4c := subAll
    [.lit ("ElevenLabsService(voice_id=\"".toList ++ sel ++ "\",".toList),
     .star pyIsSpace, .lit "model=\"".toList, .star notQuote, .lit "\"".toList,
     .opt isComma, .star pyIsSpace]
    ("ElevenLabsService(voice_id=\"".toList ++ sel ++ "\", ".toList) s4b
  let s5 := subAll
    [.lit "GTTSService(".toList, .star notParen, .lit ")".toList]
    ("ElevenLabsService(voice_id=\"".toList ++ sel ++
      "\", transcription_model=None)".toList) s4c
  let s6 := subAll
    [.lit "from manim_voiceover.services.gtts import GTTSService".toList]
    "from manim_voiceover.services.elevenlabs import ElevenLabsService".toList s5
  let s7 := subAll
    [.lit "RecorderService(".toList, .star notParen, .lit ")".toList]
    ("ElevenLabsService(voice_id=\"".toList ++ sel ++
      "\", transcription_model=None)".toList) s6
  let s8 := subAll
    [.lit "from manim_voiceover.services.recorder import RecorderService".toList,
     .star notNl, .opt (fun c => c = '\n')]
    [] s7
  ⟨s8⟩

/-- The approved narration import line. -/
def elevenImportLine : String :=
  "from manim_voiceover.services.elevenlabs import ElevenLabsService"

/-- `ensure_elevenlabs_import` from `services/code_utils.py` (lines 115-146). -/
def ensure_elevenlabs_import (code : String) : String :=
  if pyContains code elevenImportLine then code
  else if pyContains code "from manim_voiceover" then
    ⟨subFirstKeep
      [.lit "from manim_voiceover".toList, .plus notNl, .lit "\n".toList]
      (elevenImportLine.toList ++ "\n".toList) code.toList⟩
  else
    ⟨subAllKeep [.lit "from manim import *\n".toList]
      ("from manim_voiceover import VoiceoverScene\n".toList ++
        elevenImportLine.toList ++ "\n".toList) code.toList⟩

/-- `clean_manim_code` from `services/code_utils.py` (lines 607-622). -/
def clean_manim_code (code : String) (voiceId : Option String) : String :=
  ensure_elevenlabs_import (remove_transcription_params code voiceId)

/-- Python `s.split('\n')` (always at least one piece). -/
def splitOnNl : List Char → List (List Char)
  | [] => [[]]
  | c :: rest =>
    match splitOnNl rest with
    | [] => [[]]
    | h :: t => if c = '\n' then [] :: h :: t else (c :: h) :: t

/-- Python `'\n'.join(lines)`. -/
def joinNl : List (List Char) → List Char
  | [] => []
  | [l] => l
  | l :: ls => l ++ '\n' :: joinNl ls

/-- String-level `s.split('\n')`. -/
def pyLines (s : String) : List String := (splitOnNl s.toList).map (⟨·⟩)

/-- String-level `'\n'.join(lines)`. -/
def pyJoinLines (ls : List String) : String := ⟨joinNl (ls.map String.toList)⟩

/-- The multi-line scan of `patch_code_for_pregenerated_audio`
    (`dev/generator_logic.py`, lines 852-876).  State: `in_tts_setup` and
    `skip_next` (the latter is never set by the source, and mirrored as-is). -/
def patchLinesGo (repl : String) : Bool → Bool → List String → List String
  | _, _, [] => []
  | inTts, true, _ :: rest => patchLinesGo repl inTts false rest
  | inTts, false, line :: rest =>
    if pyContains line "set_speech_service" && pyContains line "ElevenLabsTimedService" then
      ("        " ++ repl) :: patchLinesGo repl false false rest
    else if pyContains line "set_speech_service" then
      ("        " ++ repl) :: patchLinesGo repl true false rest
    else if inTts && (pyContains line "ElevenLabsTimedService" || pyContains line ")") then
      patchLinesGo repl (!pyContains line ")") false rest
    else
      line :: patchLinesGo repl inTts false rest

/-- `patch_code_for_pregenerated_audio` from `dev/generator_logic.py`
    (lines 808-878).  `jobId` and `voiceId` are the enclosing closure's
    variables; `narrationText` is accepted and unused exactly as in the
    source. -/
def patch_code_for_pregenerated_audio (jobId : String) (voiceId : Option String)
    (code : String) (sectionNum : Nat) (_narrationText : String) : String :=
  let p0 :=
    if !pyContains code "PreGeneratedAudioService" then
      if pyContains code "from services.tts" || pyContains code "from tts import" then
        pyReplace
          (pyReplace code "from tts import ElevenLabsTimedService"
            "from services.tts.pregenerated import PreGeneratedAudioService")
          "from services.tts import ElevenLabsTimedService"
          "from services.tts.pregenerated import PreGeneratedAudioService"
      else
        if pyContains code "from manim_voiceover import VoiceoverScene" then
          pyReplace code "from manim_voiceover import VoiceoverScene"
            "from manim_voiceover import VoiceoverScene\nfrom services.tts.pregenerated import PreGeneratedAudioService"
        else code
    else code
  let audioPath :=
    "/outputs/" ++ jobId ++ "/voiceovers/section_" ++ toString sectionNum ++ ".mp3"
  let replacement :=
    "self.set_speech_service(PreGeneratedAudioService(audio_file_path=\"" ++
      audioPath ++ "\", fallback_to_elevenlabs=True, voice_id=\"" ++
      selectVoiceId voiceId ++ "\"))"
  let p1 : String :=
    ⟨subAll
      [.lit "self.set_speech_service(ElevenLabsTimedService(".toList,
       .star notParen, .lit "))".toList]
      replacement.toList p0.toList⟩
  if pyContains p1 "ElevenLabsTimedService" && pyContains p1 "set_speech_service" then
    pyJoinLines (patchLinesGo replacement false false (pyLines p1))
  else p1

/-- A section code variant as Stage 2 + cleanup actually produce it: the
    speech service is initialised with `ElevenLabsService`, the constructor
    form `clean_manim_code` enforces. -/
def stage3Variant : String :=
  "from manim import *\nfrom manim_voiceover import VoiceoverScene\nfrom manim_voiceover.services.elevenlabs import ElevenLabsService\n\nclass TestScene(VoiceoverScene):\n    def construct(self):\n        self.set_speech_service(ElevenLabsService(voice_id=\"pqHfZKP75CvOlQylNhV4\", transcription_model=None))\n        self.wait()\n"

/-- C1: Stage 3 patching of a pipeline-produced variant never constructs the
    pre-generated-audio service: the replacement patterns only match
    `ElevenLabsTimedService`, so a variant whose init call uses
    `ElevenLabsService` (the form the pipeline itself enforces) keeps its
    live-TTS initialisation, and the section mp3 path never enters the code;
    only the import line is inserted. -/
theorem patch_code_keeps_live_tts_init :
    pyContains (patch_code_for_pregenerated_audio "job1" none stage3Variant 2 "script")
      "set_speech_service(PreGeneratedAudioService" = false ∧
    pyContains (patch_code_for_pregenerated_audio "job1" none stage3Variant 2 "script")
      "set_speech_service(ElevenLabsService(" = true ∧
    pyContains (patch_code_for_pregenerated_audio "job1" none stage3Variant 2 "script")
      "/outputs/job1/voiceovers/section_2.mp3" = false := by decide

/-- `MAX_RENDER_ATTEMPTS` from `dev/config.py`. -/
def MAX_RENDER_ATTEMPTS : Nat := 2

/-- The observable outcome of one render attempt's `subprocess.run` and file
    search in `render_single_scene_logic`: exit code, captured streams,
    whether a rendered mp4 was found, the checked-directory descriptions, and
    whether the best-effort GCS upload succeeded. -/
structure ProcOutcome where
  returncode : Int
  stdoutS : String
  stderrS : String
  videoFound : Bool
  checkedDirs : List String
  gcsUploadSuccess : Bool
deriving DecidableEq

/-- One loop iteration's fate: subprocess timeout, an in-loop exception, or a
    completed subprocess with its observations. -/
inductive AttemptOutcome where
  | timeout
  | exc (msg : String)
  | proc (p : ProcOutcome)

/-- A render result as returned to the orchestrator: the source returns a
    3-tuple on one path (renderer.py line 318) and 4-tuples elsewhere. -/
inductive RenderResult where
  | triple (sectionNum : Nat) (videoPath : Option String) (err : Option String)
  | quad (sectionNum : Nat) (videoPath : Option String) (err : Option String)
      (gcsUploaded : Bool)
deriving DecidableEq

/-- Whether a render result is a 4-tuple. -/
def RenderResult.isQuad : RenderResult → Bool
  | .triple _ _ _ => false
  | .quad _ _ _ _ => true

/-- Python `repr` of a list of strings (no escaping needed for the strings
    involved), as interpolated by `f"Checked directories: {checked_dirs}"`. -/
def pyListRepr (ls : List String) : String :=
  "[" ++ String.intercalate ", " (ls.map (fun s => "'" ++ s ++ "'")) ++ "]"

/-- `stderr[:1000]`. -/
def strTake (n : Nat) (s : String) : String := ⟨s.toList.take n⟩

/-- `stdout[-1000:]`. -/
def strTakeRight (n : Nat) (s : String) : String :=
  ⟨s.toList.drop (s.toList.length - n)⟩

/-- The terminal error message composed at renderer.py lines 308-317. -/
def composeRenderError (p : ProcOutcome) : String :=
  let d1 := if p.returncode ≠ 0 then ["Exit code: " ++ toString p.returncode] else []
  let d2 := if p.checkedDirs ≠ [] then
    ["Checked directories: " ++ pyListRepr p.checkedDirs] else []
  let d3 := if p.stderrS ≠ "" then ["stderr: " ++ strTake 1000 p.stderrS] else []
  let d4 := if p.stdoutS ≠ "" ∧ p.returncode ≠ 0 then
    ["stdout: " ++ strTakeRight 1000 p.stdoutS] else []
  "Render failed. " ++ String.intercalate " | " (d1 ++ d2 ++ d3 ++ d4)

/-- The attempt loop of `render_single_scene_logic` (`dev/renderer.py`,
    lines 59-428), with the subprocess/filesystem/LLM effects abstracted into
    `outcomes` (one observation per attempt index).  `remaining` counts the
    loop iterations left (`MAX_RENDER_ATTEMPTS - idx`); code repair only
    changes the code, which does not affect the returned shape. -/
def renderLoopGo (sectionNum : Nat) (workDir : String)
    (outcomes : Nat → AttemptOutcome) : Nat → Nat → RenderResult
  | 0, _ => .quad sectionNum none (some "Failed after all attempts") false
  | remaining + 1, idx =>
    match outcomes idx with
    | .timeout =>
      if idx < MAX_RENDER_ATTEMPTS - 1 then
        renderLoopGo sectionNum workDir outcomes remaining (idx + 1)
      else .quad sectionNum none (some "Timeout after repair attempt") false
    | .exc msg => .quad sectionNum none (some msg) false
    | .proc p =>
      if !p.videoFound && idx < MAX_RENDER_ATTEMPTS - 1 then
        renderLoopGo sectionNum workDir outcomes remaining (idx + 1)
      else if !p.videoFound then
        .triple sectionNum none (some (composeRenderError p))
      else
        .quad sectionNum
          (some (workDir ++ "/section_" ++ toString sectionNum ++ ".mp4")) none
          p.gcsUploadSuccess

/-- `render_single_scene_logic` result shape (`dev/renderer.py`). -/
def render_single_scene_logic (sectionNum : Nat) (workDir : String)
    (outcomes : Nat → AttemptOutcome) : RenderResult :=
  renderLoopGo sectionNum workDir outcomes MAX_RENDER_ATTEMPTS 0

/-- A completed attempt with no output video and non-empty streams. -/
def cexProcOutcome : ProcOutcome :=
  { returncode := 1, stdoutS := "out", stderrS := "err", videoFound := false,
    checkedDirs := ["480p15 (missing)", "480p12 (missing)"],
    gcsUploadSuccess := false }

/-- C5 counterexample: when both attempts complete without an output video,
    `render_single_scene_logic` returns the 3-tuple of renderer.py line 318,
    not a 4-tuple: there is no storage-upload-success flag at all on this
    terminal path. -/
theorem render_terminal_failure_is_triple :
    RenderResult.isQuad
      (render_single_scene_logic 1 "/outputs/job1" (fun _ => .proc cexProcOutcome)) =
        false ∧
    render_single_scene_logic 1 "/outputs/job1" (fun _ => .proc cexProcOutcome) =
      .triple 1 none (some
        "Render failed. Exit code: 1 | Checked directories: ['480p15 (missing)', '480p12 (missing)'] | stderr: err | stdout: out") := by
  constructor
  · rfl
  · rfl

/-- C5 (amended): on terminal failure `render_single_scene_logic` returns
    without raising, but the shape depends on the path: attempts exhausted
    with a completed render process yield the 3-tuple
    (section, absent, composed error) with no upload flag, while a timeout on
    the final attempt yields the 4-tuple
    (section, absent, "Timeout after repair attempt", false). -/
theorem render_terminal_failure_shape :
    (∀ (n : Nat) (wd : String) (oc : Nat → AttemptOutcome) (p0 p1 : ProcOutcome),
      oc 0 = .proc p0 → oc 1 = .proc p1 →
      p0.videoFound = false → p1.videoFound = false →
      render_single_scene_logic n wd oc =
        .triple n none (some (composeRenderError p1))) ∧
    (∀ (n : Nat) (wd : String) (oc : Nat → AttemptOutcome) (p0 : ProcOutcome),
      oc 0 = .proc p0 → p0.videoFound = false → oc 1 = .timeout →
      render_single_scene_logic n wd oc =
        .quad n none (some "Timeout after repair attempt") false) := by
  constructor
  · intro n wd oc p0 p1 h0 h1 hv0 hv1
    simp [render_single_scene_logic, renderLoopGo, MAX_RENDER_ATTEMPTS, h0, h1,
      hv0, hv1]
  · intro n wd oc p0 h0 hv0 h1
    simp [render_single_scene_logic, renderLoopGo, MAX_RENDER_ATTEMPTS, h0, h1,
      hv0]

/-- C5 witness: both amended branches applied at concrete outcome sequences. -/
theorem render_terminal_failure_shape_witness :
    render_single_scene_logic 3 "/outputs/jobW" (fun _ => .proc cexProcOutcome) =
      .triple 3 none (some (composeRenderError cexProcOutcome)) ∧
    render_single_scene_logic 4 "/outputs/jobW"
        (fun i => if i = 0 then .proc cexProcOutcome else .timeout) =
      .quad 4 none (some "Timeout after repair attempt") false :=
  ⟨render_terminal_failure_shape.1 3 "/outputs/jobW" _ cexProcOutcome
      cexProcOutcome rfl rfl rfl rfl,
   render_terminal_failure_shape.2 4 "/outputs/jobW" _ cexProcOutcome rfl rfl rfl⟩

/-- The per-section render-result unpacking of `try_render_with_fallback`
    (`dev/generator_logic.py`, lines 469-474): a 4-tuple is used as-is, a
    3-tuple gets a `False` upload flag. -/
def unpackRenderResult : RenderResult → Nat × Option String × Option String × Bool
  | .quad n v e g => (n, v, e, g)
  | .triple n v e => (n, v, e, false)

/-- C10: the orchestrator's wait accepts render results of either arity:
    4-tuples unpack as-is and 3-tuples unpack with the storage-upload flag
    defaulting to false, so every result of either shape is processed. -/
theorem unpack_render_result_both_arities (n : Nat) (v e : Option String) (g : Bool) :
    unpackRenderResult (.quad n v e g) = (n, v, e, g) ∧
    unpackRenderResult (.triple n v e) = (n, v, e, false) :=
  ⟨rfl, rfl⟩

/-- A word-timing dictionary from `_extract_word_timings`.  The field `end_`
    models the dict key `'end'` (`end` is reserved in Lean). -/
structure WordTiming where
  text : String
  start : ℚ
  end_ : ℚ
  char_start_index : Nat
  char_end_index : Nat
deriving DecidableEq

/-- The whitespace test `char in [' ', '\n', '\t']` on the API's one-character
    strings. -/
def wsApiChar (s : String) : Bool := s = " " || s = "\n" || s = "\t"

/-- Truthiness of `current_word['text'].strip()`. -/
def stripNonEmpty (s : String) : Bool := !(stripWs s.toList).isEmpty

/-- The character loop of `_extract_word_timings`
    (`services/tts/elevenlabs.py`, lines 149-172).  `i` is the absolute index
    of the head of `rest` in `chars`; out-of-range indexing (which would raise
    in Python) cannot occur for the length-consistent inputs considered and is
    modelled by `getD _ 0`. -/
def extractWordsGo (chars : List String) (sts ets : List ℚ) :
    Nat → List String → WordTiming → List WordTiming
  | _, [], cur =>
    if stripNonEmpty cur.text then
      [{ cur with end_ := ets.getLastD 0 }]
    else []
  | i, ch :: rest, cur =>
    if wsApiChar ch then
      let curM := if stripNonEmpty cur.text then
          { cur with
            end_ := (if 0 < i then ets.getD (i - 1) 0 else sts.getD i 0),
            char_end_index := i - 1 }
        else cur
      let emitted := if stripNonEmpty cur.text then [curM] else []
      let next := i + 1 + ((chars.drop (i + 1)).takeWhile wsApiChar).length
      let cur' := if next < chars.length then
          { text := "", start := sts.getD next 0, end_ := 0,
            char_start_index := next, char_end_index := next }
        else curM
      emitted ++ extractWordsGo chars sts ets (i + 1) rest cur'
    else
      extractWordsGo chars sts ets (i + 1) rest
        { cur with text := cur.text ++ ch, char_end_index := i }

/-- `_extract_word_timings` from `services/tts/elevenlabs.py` (lines 123-179):
    convert character-level alignment to word-level timing. -/
def extract_word_timings (chars : List String) (sts ets : List ℚ) :
    List WordTiming :=
  if chars.isEmpty || sts.isEmpty || ets.isEmpty then []
  else extractWordsGo chars sts ets 0 chars
    { text := "", start := sts.getD 0 0, end_ := 0,
      char_start_index := 0, char_end_index := 0 }

/-- C6: on characters `["H","i"," ","y","o","u"]` with strictly increasing
    per-character start and end times, exactly two words are produced: `"Hi"`
    covering character indices 0-1 and `"you"` covering 3-5, the first word
    starting at `start_times[0]`. -/
theorem extract_word_timings_hi_you
    (s0 s1 s2 s3 s4 s5 e0 e1 e2 e3 e4 e5 : ℚ)
    (_hs : s0 < s1 ∧ s1 < s2 ∧ s2 < s3 ∧ s3 < s4 ∧ s4 < s5)
    (_he : e0 < e1 ∧ e1 < e2 ∧ e2 < e3 ∧ e3 < e4 ∧ e4 < e5) :
    extract_word_timings ["H", "i", " ", "y", "o", "u"]
        [s0, s1, s2, s3, s4, s5] [e0, e1, e2, e3, e4, e5] =
      [{ text := "Hi", start := s0, end_ := e1,
         char_start_index := 0, char_end_index := 1 },
       { text := "you", start := s3, end_ := e5,
         char_start_index := 3, char_end_index := 5 }] := rfl

/-- C6 witness: the theorem at concrete strictly increasing rational times. -/
theorem extract_word_timings_hi_you_witness :
    extract_word_timings ["H", "i", " ", "y", "o", "u"]
        [1, 2, 3, 4, 5, 6] [2, 3, 4, 5, 6, 7] =
      [{ text := "Hi", start := 1, end_ := 3,
         char_start_index := 0, char_end_index := 1 },
       { text := "you", start := 4, end_ := 7,
         char_start_index := 3, char_end_index := 5 }] :=
  extract_word_timings_hi_you 1 2 3 4 5 6 2 3 4 5 6 7
    (by norm_num) (by norm_num)

/-- The effectful collaborators of `CacheService.get_cache`, each modelled as
    the outcome the call would have: `blobExists` is `blob.exists()`,
    `downloadText` is `blob.download_as_text()`, `parseJson` is
    `json.loads`; `.error` means the call raises. -/
structure GcsCacheEnv (α : Type) where
  blobExists : Except String Bool
  downloadText : Except String String
  parseJson : String → Except String α

/-- `CacheService.get_cache_key` (`services/cache_service.py`, lines 65-78):
    raises `ValueError` on an empty normalized prompt. -/
def get_cache_key (normalized : String) : Except String String :=
  if normalized = "" then .error "Normalized prompt cannot be empty"
  else .ok ("cache/" ++ normalized ++ ".json")

/-- `CacheService.get_cache` (`services/cache_service.py`, lines 80-117) with
    its two nested `try/except` blocks made explicit: a raising step inside
    the inner block is caught there, anything else (including a raising
    `get_cache_key`) is caught by the outer block; every handler returns
    `None`. -/
def get_cache {α : Type} (env : GcsCacheEnv α) (prompt : String) :
    Except String (Option α) :=
  let normalized := normalize_prompt prompt
  if normalized = "" then .ok none
  else
    match get_cache_key normalized with
    | .error _ => .ok none
    | .ok _cacheKey =>
      match env.blobExists with
      | .error _ => .ok none
      | .ok false => .ok none
      | .ok true =>
        match env.downloadText with
        | .error _ => .ok none
        | .ok s =>
          match env.parseJson s with
          | .error _ => .ok none
          | .ok d => .ok (some d)

/-- C9: `get_cache` never raises, and every miss condition (empty normalized
    prompt, blob not found, any raising read or parse step) uniformly yields
    `None`. -/
theorem get_cache_never_raises {α : Type} (env : GcsCacheEnv α) (prompt : String) :
    (∃ r, get_cache env prompt = .ok r) ∧
    (normalize_prompt prompt = "" → get_cache env prompt = .ok none) ∧
    (env.blobExists = .ok false → get_cache env prompt = .ok none) ∧
    (∀ msg, env.blobExists = .error msg → get_cache env prompt = .ok none) ∧
    (∀ msg, env.downloadText = .error msg → get_cache env prompt = .ok none) ∧
    (∀ s msg, env.downloadText = .ok s → env.parseJson s = .error msg →
      get_cache env prompt = .ok none) := by
  refine ⟨?_, ?_, ?_, ?_, ?_, ?_⟩
  · unfold get_cache get_cache_key
    by_cases hn : normalize_prompt prompt = ""
    · exact ⟨none, by simp [hn]⟩
    · cases hb : env.blobExists with
      | error m => exact ⟨none, by simp [hn, hb]⟩
      | ok b =>
        cases b with
        | false => exact ⟨none, by simp [hn, hb]⟩
        | true =>
          cases hd : env.downloadText with
          | error m => exact ⟨none, by simp [hn, hb, hd]⟩
          | ok s =>
            cases hp : env.parseJson s with
            | error m => exact ⟨none, by simp [hn, hb, hd, hp]⟩
            | ok d => exact ⟨some d, by simp [hn, hb, hd, hp]⟩
  · intro hn; simp [get_cache, hn]
  · intro hb
    unfold get_cache get_cache_key
    by_cases hn : normalize_prompt prompt = ""
    · simp [hn]
    · simp [hn, hb]
  · intro msg hb
    unfold get_cache get_cache_key
    by_cases hn : normalize_prompt prompt = ""
    · simp [hn]
    · simp [hn, hb]
  · intro msg hd
    unfold get_cache get_cache_key
    by_cases hn : normalize_prompt prompt = ""
    · simp [hn]
    · cases hb : env.blobExists with
      | error m => simp [hn, hb]
      | ok b =>
        cases b with
        | false => simp [hn, hb]
        | true => simp [hn, hb, hd]
  · intro s msg hd hp
    unfold get_cache get_cache_key
    by_cases hn : normalize_prompt prompt = ""
    · simp [hn]
    · cases hb : env.blobExists with
      | error m => simp [hn, hb]
      | ok b =>
        cases b with
        | false => simp [hn, hb]
        | true => simp [hn, hb, hd, hp]

/-- C9 witness: the theorem's miss branches at a concrete environment whose
    download raises and whose parser rejects everything, with a blank prompt
    and a real prompt. -/
theorem get_cache_never_raises_witness :
    get_cache (α := Nat)
        { blobExists := .ok true, downloadText := .error "boom",
          parseJson := fun _ => .error "bad json" } "hello" = .ok none ∧
    get_cache (α := Nat)
        { blobExists := .ok true, downloadText := .ok "{}",
          parseJson := fun _ => .error "bad json" } "!!!" = .ok none :=
  ⟨(get_cache_never_raises _ "hello").2.2.2.2.1 "boom" rfl,
   (get_cache_never_raises _ "!!!").2.1 (by decide)⟩

/-- `line.strip()` as a string. -/
def pyStripStr (s : String) : String := ⟨stripWs s.toList⟩

/-- Python `s.startswith(pre)`. -/
def pyStartsWith (s pre : String) : Bool := pre.toList.isPrefixOf s.toList

/-- The per-line step of `remove_incorrect_imports` (lines 331-352):
    `none` models the `continue` branches. -/
def riiLine (line : String) : Option String :=
  if pyContains line "from manim_voiceover.helper import create_voiceover_tracker" then
    none
  else if pyContains line "create_voiceover_tracker" then none
  else if pyContains line
      "from manim_voiceover.services.tts.pregenerated import PreGeneratedAudioService" then
    some "from services.tts.pregenerated import PreGeneratedAudioService"
  else if pyContains line "from manim_voiceover.services.tts" then
    some (pyReplace line "from manim_voiceover.services.tts" "from services.tts")
  else some line

/-- `remove_incorrect_imports` from `services/code_utils.py` (lines 317-354). -/
def remove_incorrect_imports (code : String) : String :=
  pyJoinLines ((pyLines code).filterMap riiLine)

/-- `remove_camera_orientation_calls` from `services/code_utils.py`
    (lines 153-173). -/
def remove_camera_orientation_calls (code : String) : String :=
  pyJoinLines ((pyLines code).filter fun line =>
    !pyStartsWith (pyStripStr line) "self.set_camera_orientation")

/-- The per-line rewrite of `fix_add_tip_parameters` (lines 489-504). -/
def fatLine (line : String) : String :=
  if pyContains line ".add_tip(" &&
      (pyContains line "width=" || pyContains line "length=") then
    ⟨subAll [.lit ".add_tip(".toList, .star notParen, .lit ")".toList]
      ".add_tip()".toList line.toList⟩
  else line

/-- The per-line rewrite of `fix_scene_inheritance` (lines 190-200). -/
def fsLine (line : String) : String :=
  if pyContains line "(Scene)" && !pyContains line "(VoiceoverScene)" then
    pyReplace line "(Scene)" "(VoiceoverScene)"
  else line

/-- `fix_scene_inheritance` from `services/code_utils.py` (lines 176-205):
    rewrite `(Scene)` to `(VoiceoverScene)` on lines not already mentioning
    `(VoiceoverScene)`. -/
def fix_scene_inheritance (code : String) : String :=
  pyJoinLines ((pyLines code).map fsLine)

/-- The line walk of `ensure_voiceover_imports` (lines 226-238), with its
    `imports_added` flag. -/
def evImportsGo : Bool → List String → List String
  | _, [] => []
  | added, line :: rest =>
    if pyStartsWith (pyStripStr line) "from manim import" && !added then
      line :: "from manim_voiceover import VoiceoverScene" ::
        "from manim_voiceover.services.elevenlabs import ElevenLabsService" ::
        evImportsGo true rest
    else line :: evImportsGo added rest

/-- `ensure_voiceover_imports` from `services/code_utils.py` (lines 208-238). -/
def ensure_voiceover_imports (code : String) : String :=
  if !pyContains code "VoiceoverScene" then code
  else if pyContains code "from manim_voiceover import VoiceoverScene" then code
  else pyJoinLines (evImportsGo false (pyLines code))

/-- The blocklist of `remove_incompatible_methods` (lines 291-299). -/
def incompatiblePatterns : List String :=
  ["self.set_camera_orientation", ".begin_ambient_camera_rotation",
   ".stop_ambient_camera_rotation", ".move_camera", "self.check_overlap",
   ".check_overlap", ".bounding_box"]

/-- `remove_incompatible_methods` from `services/code_utils.py`
    (lines 278-314). -/
def remove_incompatible_methods (code : String) : String :=
  pyJoinLines ((pyLines code).filter fun line =>
    !incompatiblePatterns.any fun pat => pyContains (pyStripStr line) pat)

/-- `fix_color_constants` from `services/code_utils.py` (lines 399-413):
    documented no-op. -/
def fix_color_constants (code : String) : String := code

/-- `fix_add_tip_parameters` from `services/code_utils.py` (lines 468-506):
    on lines containing `.add_tip(` and a `width=`/`length=` argument,
    `re.sub(r'\.add_tip\([^)]*\)', '.add_tip()', line)`. -/
def fix_add_tip_parameters (code : String) : String :=
  pyJoinLines ((pyLines code).map fatLine)

/-- The line walk of `ensure_speech_service_init` (lines 258-275), with its
    `in_construct` and `service_added` flags. -/
def essInitGo : Bool → Bool → List String → List String
  | _, _, [] => []
  | inConstruct, added, line :: rest =>
    if pyContains line "def construct(self):" then
      line :: essInitGo true added rest
    else if inConstruct && !(stripWs line.toList).isEmpty &&
        !pyStartsWith (pyStripStr line) "#" && !added then
      line :: "        # Initialize ElevenLabs speech service for audio narration" ::
        "        self.set_speech_service(ElevenLabsService())" ::
        essInitGo false true rest
    else line :: essInitGo inConstruct added rest

/-- `ensure_speech_service_init` from `services/code_utils.py`
    (lines 241-275). -/
def ensure_speech_service_init (code : String) : String :=
  if !pyContains code "VoiceoverScene" then code
  else if pyContains code "set_speech_service" then code
  else pyJoinLines (essInitGo false false (pyLines code))

/-- `add_basic_voiceover_if_missing` from `services/code_utils.py`
    (lines 579-600): every path returns the input (it only warns). -/
def add_basic_voiceover_if_missing (code : String) : String := code

/-- `apply_all_manual_fixes` from `services/code_utils.py` (lines 625-650):
    the fixed-order composition.  The voice id parameter is accepted and,
    as in the source, unused by every component. -/
def apply_all_manual_fixes (code : String) (_voiceId : Option String) : String :=
  add_basic_voiceover_if_missing
    (ensure_speech_service_init
      (fix_add_tip_parameters
        (fix_color_constants
          (remove_incompatible_methods
            (ensure_voiceover_imports
              (fix_scene_inheritance
                (remove_camera_orientation_calls
                  (remove_incorrect_imports code))))))))

/-- A line carrying both a `(Scene)` base class and a `(VoiceoverScene)`
    mention. -/
def cexMixedSceneLine : String := "class A(Scene): pass  # like (VoiceoverScene)"

/-- A line where the `.add_tip` rewrite consumes a `(VoiceoverScene)`
    occurrence. -/
def cexAddTipLine : String := "a.add_tip((VoiceoverScene) width=1) (Scene)"

/-- C8 counterexample: `apply_all_manual_fixes` leaves the `(Scene)`
    occurrence of a line already mentioning `(VoiceoverScene)` untouched, and
    it is not idempotent: on a line whose `.add_tip(...)` rewrite swallows
    the only `(VoiceoverScene)`, the second application performs a further
    `(Scene)` rewrite the first did not. -/
theorem apply_all_manual_fixes_cex :
    (apply_all_manual_fixes cexMixedSceneLine none = cexMixedSceneLine ∧
      pyContains cexMixedSceneLine "(Scene)" = true) ∧
    apply_all_manual_fixes (apply_all_manual_fixes cexAddTipLine none) none ≠
      apply_all_manual_fixes cexAddTipLine none := by
  refine ⟨⟨?_, ?_⟩, ?_⟩ <;> decide

lemma containsL_cons (pat : List Char) (c : Char) (rest : List Char) :
    containsL pat (c :: rest) =
      (pat.isPrefixOf (c :: rest) || containsL pat rest) := rfl

lemma splitOnNl_cons (c : Char) (rest : List Char) :
    splitOnNl (c :: rest) =
      match splitOnNl rest with
      | [] => [[]]
      | h :: t => if c = '\n' then [] :: h :: t else (c :: h) :: t := rfl

lemma containsL_iff {pat l : List Char} :
    containsL pat l = true ↔ ∃ x y, l = x ++ pat ++ y := by
  constructor
  · intro h
    induction l with
    | nil =>
      simp only [containsL, List.isEmpty_iff] at h
      exact ⟨[], [], by simp [h]⟩
    | cons c rest ih =>
      rw [containsL_cons, Bool.or_eq_true] at h
      rcases h with h | h
      · rcases List.isPrefixOf_iff_prefix.mp h with ⟨t, ht⟩
        exact ⟨[], t, by simp [← ht]⟩
      · rcases ih h with ⟨x, y, hxy⟩
        exact ⟨c :: x, y, by simp [hxy]⟩
  · rintro ⟨x, y, rfl⟩
    induction x with
    | nil =>
      cases pat with
      | nil => cases y <;> simp [containsL]
      | cons p ps =>
        rw [List.nil_append, List.cons_append, containsL_cons, Bool.or_eq_true]
        left
        exact List.isPrefixOf_iff_prefix.mpr ⟨y, by simp⟩
    | cons a x' ih =>
      rw [List.cons_append, List.cons_append, containsL_cons, Bool.or_eq_true]
      right
      exact ih

lemma containsL_sandwich {pat x y : List Char} :
    containsL pat (x ++ pat ++ y) = true :=
  containsL_iff.mpr ⟨x, y, rfl⟩

lemma containsL_mono {pat l x y : List Char} (h : containsL pat l = true) :
    containsL pat (x ++ l ++ y) = true := by
  rcases containsL_iff.mp h with ⟨u, v, rfl⟩
  refine containsL_iff.mpr ⟨x ++ u, v ++ y, ?_⟩
  simp

lemma splitOnNl_ne_nil (s : List Char) : splitOnNl s ≠ [] := by
  cases s with
  | nil => simp [splitOnNl]
  | cons c rest =>
    rw [splitOnNl_cons]
    cases splitOnNl rest with
    | nil => simp
    | cons h t =>
      dsimp only
      split <;> simp

lemma mem_splitOnNl_no_nl {s : List Char} :
    ∀ l ∈ splitOnNl s, '\n' ∉ l := by
  induction s with
  | nil => intro l hl; simp [splitOnNl] at hl; simp [hl]
  | cons c rest ih =>
    intro l hl
    rw [splitOnNl_cons] at hl
    cases hs : splitOnNl rest with
    | nil => exact absurd hs (splitOnNl_ne_nil rest)
    | cons h t =>
      rw [hs] at hl
      dsimp only at hl
      by_cases hc : c = '\n'
      · rw [if_pos hc] at hl
        rcases List.mem_cons.mp hl with rfl | hl
        · simp
        · exact ih l (hs ▸ hl)
      · rw [if_neg hc] at hl
        rcases List.mem_cons.mp hl with rfl | hl
        · intro hmem
          rcases List.mem_cons.mp hmem with h' | h'
          · exact hc h'.symm
          · exact ih h (hs ▸ List.mem_cons_self h t) h'
        · exact ih l (hs ▸ List.mem_cons_of_mem h hl)

lemma joinNl_cons_cons (c : Char) (h : List Char) (t : List (List Char)) :
    joinNl ((c :: h) :: t) = c :: joinNl (h :: t) := by
  cases t <;> rfl

lemma joinNl_splitOnNl (s : List Char) : joinNl (splitOnNl s) = s := by
  induction s with
  | nil => rfl
  | cons c rest ih =>
    rw [splitOnNl_cons]
    cases hs : splitOnNl rest with
    | nil => exact absurd hs (splitOnNl_ne_nil rest)
    | cons h t =>
      dsimp only
      by_cases hc : c = '\n'
      · rw [if_pos hc, hc]
        show '\n' :: joinNl (h :: t) = '\n' :: rest
        rw [← hs, ih]
      · rw [if_neg hc, joinNl_cons_cons, ← hs, ih]

lemma splitOnNl_no_nl {l : List Char} (h : '\n' ∉ l) : splitOnNl l = [l] := by
  induction l with
  | nil => rfl
  | cons c rest ih =>
    rw [splitOnNl_cons, ih (fun hmem => h (List.mem_cons_of_mem c hmem))]
    dsimp only
    rw [if_neg (fun hc => h (by simp [hc]))]

lemma splitOnNl_append_nl {l rest : List Char} (h : '\n' ∉ l) :
    splitOnNl (l ++ '\n' :: rest) = l :: splitOnNl rest := by
  induction l with
  | nil =>
    rw [List.nil_append, splitOnNl_cons]
    cases hs : splitOnNl rest with
    | nil => exact absurd hs (splitOnNl_ne_nil rest)
    | cons h' t => simp
  | cons c l' ih =>
    rw [List.cons_append, splitOnNl_cons,
      ih (fun hmem => h (List.mem_cons_of_mem c hmem))]
    dsimp only
    rw [if_neg (fun hc => h (by simp [hc]))]

lemma splitOnNl_joinNl : ∀ (ls : List (List Char)), ls ≠ [] →
    (∀ l ∈ ls, '\n' ∉ l) → splitOnNl (joinNl ls) = ls := by
  intro ls
  induction ls with
  | nil => intro h; exact absurd rfl h
  | cons l t ih =>
    intro _ hno
    cases t with
    | nil =>
      show splitOnNl (joinNl [l]) = [l]
      exact splitOnNl_no_nl (hno l (List.mem_cons_self l []))
    | cons l' t' =>
      show splitOnNl (l ++ '\n' :: joinNl (l' :: t')) = l :: l' :: t'
      rw [splitOnNl_append_nl (hno l (List.mem_cons_self l _))]
      rw [ih (by simp) (fun x hx => hno x (List.mem_cons_of_mem l hx))]

lemma prefix_append_cases {p a b : List Char} (h : p <+: a ++ b) :
    p <+: a ∨ (a <+: p ∧ p.drop a.length <+: b) := by
  induction a generalizing p with
  | nil => exact Or.inr ⟨List.nil_prefix, by simpa using h⟩
  | cons c a' ih =>
    cases p with
    | nil => exact Or.inl List.nil_prefix
    | cons d p' =>
      rw [List.cons_append] at h
      rcases List.cons_prefix_cons.mp h with ⟨rfl, h'⟩
      rcases ih h' with h'' | ⟨h1, h2⟩
      · exact Or.inl (List.cons_prefix_cons.mpr ⟨rfl, h''⟩)
      · exact Or.inr ⟨List.cons_prefix_cons.mpr ⟨rfl, h1⟩, by simpa using h2⟩

/-- A decidable certificate that an occurrence of `p'` can never overlap an
    inserted copy of `m`: no nonempty suffix of `m` begins `p'`, no nonempty
    prefix of `m` ends `p'`, `p'` does not occur inside `m`, and `m` does not
    occur inside `p'`. -/
def noJunction (m p' : List Char) : Bool :=
  (m.tails.all fun s => s.isEmpty || !s.isPrefixOf p') &&
  (m.inits.all fun s => s.isEmpty || !s.isSuffixOf p') &&
  !containsL p' m && !containsL m p'

lemma containsL_of_prefix_suffix {pat mid l : List Char}
    (h1 : pat <+: mid) (h2 : mid <:+ l) : containsL pat l = true := by
  rcases h1 with ⟨r, hr⟩
  rcases h2 with ⟨w, hw⟩
  exact containsL_iff.mpr ⟨w, r, by rw [← hw, ← hr]; simp⟩

lemma noJunction_through {m p' : List Char} (hnj : noJunction m p' = true) :
    ∀ {m' y : List Char}, m' <:+ m → m' ≠ [] →
      containsL p' (m' ++ y) = true → containsL p' y = true := by
  simp only [noJunction, Bool.and_eq_true, List.all_eq_true, Bool.or_eq_true,
    Bool.not_eq_eq_eq_not, Bool.not_true, List.isEmpty_iff] at hnj
  obtain ⟨⟨⟨hTails, _hInits⟩, hPM⟩, _hMP⟩ := hnj
  intro m' y hsuf hne h
  induction m' with
  | nil => exact absurd rfl hne
  | cons c t ih =>
    rw [List.cons_append, containsL_cons, Bool.or_eq_true] at h
    rcases h with h | h
    · exfalso
      have hp := List.isPrefixOf_iff_prefix.mp h
      rw [← List.cons_append] at hp
      rcases prefix_append_cases hp with hp' | ⟨hp', _⟩
      · -- p' lies inside the suffix c :: t of m: contradicts p' ∉ m
        rw [containsL_of_prefix_suffix hp' hsuf] at hPM
        exact Bool.true_eq_false.mp hPM
      · -- c :: t is a nonempty suffix of m and a prefix of p': contradicts
        -- the tails condition
        have := hTails (c :: t) (List.mem_tails _ _ |>.mpr hsuf)
        rcases this with h' | h'
        · exact List.cons_ne_nil c t h'
        · rw [List.isPrefixOf_iff_prefix.mpr hp'] at h'
          exact Bool.true_eq_false.mp h'
    · cases t with
      | nil => simpa using h
      | cons c' t' =>
        exact ih (List.IsSuffix.trans (List.suffix_cons c (c' :: t')) hsuf)
          (List.cons_ne_nil c' t') h

/-- If `p'` occurs in `x ++ m ++ y` but can never overlap `m`
    (`noJunction`), it already occurs in `x` or in `y`. -/
lemma containsL_append_mid {m p' : List Char} (hnj : noJunction m p' = true)
    (hm : m ≠ []) :
    ∀ {x y : List Char}, containsL p' (x ++ m ++ y) = true →
      containsL p' x = true ∨ containsL p' y = true := by
  have hnj' := hnj
  simp only [noJunction, Bool.and_eq_true, List.all_eq_true, Bool.or_eq_true,
    Bool.not_eq_eq_eq_not, Bool.not_true, List.isEmpty_iff] at hnj'
  obtain ⟨⟨⟨_hTails, hInits⟩, _hPM⟩, hMP⟩ := hnj'
  intro x y h
  induction x with
  | nil =>
    rw [List.nil_append] at h
    exact Or.inr (noJunction_through hnj List.suffix_rfl hm h)
  | cons c x' ih =>
    rw [List.cons_append, List.cons_append, containsL_cons, Bool.or_eq_true] at h
    rcases h with h | h
    · have hp := List.isPrefixOf_iff_prefix.mp h
      rw [← List.cons_append, ← List.cons_append, List.append_assoc] at hp
      rcases prefix_append_cases hp with hp' | ⟨hpre, hp2⟩
      · left
        rcases hp' with ⟨r, hr⟩
        exact containsL_iff.mpr ⟨[], r, by simp [← hr]⟩
      · by_cases hq : p'.drop (c :: x').length = []
        · left
          have hlen : p'.length ≤ (c :: x').length := by
            have := List.drop_eq_nil_iff.mp hq
            omega
          have heq : c :: x' = p' :=
            hpre.eq_of_length (le_antisymm hpre.length_le hlen)
          exact containsL_iff.mpr ⟨[], [], by simp [heq]⟩
        · exfalso
          have hqsuf : p'.drop (c :: x').length <:+ p' := List.drop_suffix _ _
          rcases prefix_append_cases hp2 with hqm | ⟨hmq, _⟩
          · have := hInits _ (List.mem_inits _ _ |>.mpr hqm)
            rcases this with h' | h'
            · exact hq h'
            · rw [List.isSuffixOf_iff_suffix.mpr hqsuf] at h'
              exact Bool.true_eq_false.mp h'
          · rw [containsL_of_prefix_suffix hmq hqsuf] at hMP
            exact Bool.true_eq_false.mp hMP
    · rcases ih h with h' | h'
      · left
        rw [containsL_cons, Bool.or_eq_true]
        exact Or.inr h'
      · exact Or.inr h'

/-- Join pieces with a separator (the shape of a `str.replace` output). -/
def sandwichJoin (sep : List Char) : List (List Char) → List Char
  | [] => []
  | [p] => p
  | p :: ps => p ++ sep ++ sandwichJoin sep ps

lemma mem_replaceAllGo {pat repl : List Char} {c : Char} :
    ∀ {k : Nat} {l : List Char}, c ∈ replaceAllGo pat repl k l →
      c ∈ l ∨ c ∈ repl := by
  intro k l
  induction l generalizing k with
  | nil => intro h; simp [replaceAllGo] at h
  | cons a rest ih =>
    intro h
    match k with
    | kk + 1 =>
      rw [replaceAllGo] at h
      rcases ih h with h' | h'
      · exact Or.inl (List.mem_cons_of_mem a h')
      · exact Or.inr h'
    | 0 =>
      rw [replaceAllGo] at h
      split at h
      · rcases List.mem_append.mp h with h' | h'
        · exact Or.inr h'
        · rcases ih h' with h'' | h''
          · exact Or.inl (List.mem_cons_of_mem a h'')
          · exact Or.inr h''
      · rcases List.mem_cons.mp h with h' | h'
        · exact Or.inl (h' ▸ List.mem_cons_self a rest)
        · rcases ih h' with h'' | h''
          · exact Or.inl (List.mem_cons_of_mem a h'')
          · exact Or.inr h''

lemma replaceAllGo_skip {pat repl : List Char} :
    ∀ {l : List Char} (k : Nat),
      replaceAllGo pat repl k l = replaceAllGo pat repl 0 (l.drop k) := by
  intro l
  induction l with
  | nil => intro k; cases k <;> simp [replaceAllGo]
  | cons a rest ih =>
    intro k
    cases k with
    | zero => simp
    | succ kk => rw [replaceAllGo, List.drop_succ_cons, ih kk]

lemma replaceAllGo_sandwich {pat repl : List Char} (hpat : pat ≠ []) :
    ∀ (n : Nat) (l : List Char), l.length ≤ n →
      ∃ ps : List (List Char), ps ≠ [] ∧ l = sandwichJoin pat ps ∧
        replaceAllGo pat repl 0 l = sandwichJoin repl ps := by
  intro n
  induction n with
  | zero =>
    intro l hl
    have : l = [] := List.length_eq_zero.mp (Nat.le_zero.mp hl)
    subst this
    exact ⟨[[]], by simp, rfl, rfl⟩
  | succ n ih =>
    intro l hl
    cases l with
    | nil => exact ⟨[[]], by simp, rfl, rfl⟩
    | cons c rest =>
      rw [replaceAllGo]
      by_cases hpre : pat.isPrefixOf (c :: rest)
      · rw [if_pos hpre]
        rcases List.isPrefixOf_iff_prefix.mp hpre with ⟨rest', hrest'⟩
        have hdrop : rest.drop (pat.length - 1) = rest' := by
          have : (c :: rest).drop pat.length = rest' := by
            rw [← hrest']; simp
          cases hp : pat with
          | nil => exact absurd hp hpat
          | cons p0 pt =>
            rw [hp] at this
            simpa using this
        have hlen : rest'.length ≤ n := by
          have h1 : (c :: rest).length = pat.length + rest'.length := by
            rw [← hrest']; simp
          have h2 : 1 ≤ pat.length := by
            cases hp : pat with
            | nil => exact absurd hp hpat
            | cons _ _ => simp
          simp only [List.length_cons] at h1 hl
          omega
        rcases ih rest' hlen with ⟨ps, hne, hjoin, hrepl⟩
        refine ⟨[] :: ps, by simp, ?_, ?_⟩
        · cases ps with
          | nil => exact absurd rfl hne
          | cons p pt =>
            show c :: rest = [] ++ pat ++ sandwichJoin pat (p :: pt)
            rw [← hjoin, ← hrest']
            simp
        · rw [replaceAllGo_skip, hdrop, hrepl]
          cases ps with
          | nil => exact absurd rfl hne
          | cons p pt =>
            show repl ++ sandwichJoin repl (p :: pt) =
              [] ++ repl ++ sandwichJoin repl (p :: pt)
            simp
      · rw [if_neg hpre]
        rcases ih rest (by simpa using Nat.le_of_succ_le_succ hl) with
          ⟨ps, hne, hjoin, hrepl⟩
        cases ps with
        | nil => exact absurd rfl hne
        | cons p pt =>
          refine ⟨(c :: p) :: pt, by simp, ?_, ?_⟩
          · cases pt with
            | nil =>
              show c :: rest = c :: p
              rw [hjoin]; rfl
            | cons p2 pt2 =>
              show c :: rest = (c :: p) ++ pat ++ sandwichJoin pat (p2 :: pt2)
              rw [hjoin]
              rfl
          · rw [hrepl]
            cases pt with
            | nil => rfl
            | cons p2 pt2 => rfl

lemma containsL_sandwichJoin_piece {sep p' : List Char}
    (hnj : noJunction sep p' = true) (hsep : sep ≠ []) :
    ∀ {ps : List (List Char)}, containsL p' (sandwichJoin sep ps) = true →
      ∃ p ∈ ps, containsL p' p = true := by
  intro ps
  induction ps with
  | nil =>
    intro h
    exfalso
    simp only [sandwichJoin, containsL, List.isEmpty_iff] at h
    subst h
    have hnj' := hnj
    simp only [noJunction, Bool.and_eq_true, Bool.not_eq_eq_eq_not,
      Bool.not_true] at hnj'
    obtain ⟨⟨_, hPM⟩, _⟩ := hnj'
    cases sep with
    | nil => exact hsep rfl
    | cons c t =>
      rw [containsL_cons] at hPM
      simp [List.isPrefixOf] at hPM
  | cons p pt ih =>
    intro h
    cases pt with
    | nil => exact ⟨p, List.mem_cons_self p [], h⟩
    | cons p2 pt2 =>
      have hshape : sandwichJoin sep (p :: p2 :: pt2) =
          p ++ sep ++ sandwichJoin sep (p2 :: pt2) := rfl
      rw [hshape] at h
      rcases containsL_append_mid hnj hsep h with h' | h'
      · exact ⟨p, List.mem_cons_self p _, h'⟩
      · rcases ih h' with ⟨q, hq, hcq⟩
        exact ⟨q, List.mem_cons_of_mem p hq, hcq⟩

lemma containsL_sandwichJoin_of_piece {sep p' : List Char} :
    ∀ {ps : List (List Char)} {p : List Char}, p ∈ ps →
      containsL p' p = true → containsL p' (sandwichJoin sep ps) = true := by
  intro ps
  induction ps with
  | nil => intro p hp; simp at hp
  | cons q pt ih =>
    intro p hp hc
    cases pt with
    | nil =>
      rcases List.mem_cons.mp hp with rfl | hp'
      · exact hc
      · simp at hp'
    | cons q2 pt2 =>
      have hshape : sandwichJoin sep (q :: q2 :: pt2) =
          q ++ sep ++ sandwichJoin sep (q2 :: pt2) := rfl
      rw [hshape]
      rcases List.mem_cons.mp hp with rfl | hp'
      · rcases containsL_iff.mp hc with ⟨u, v, rfl⟩
        exact containsL_iff.mpr ⟨u, v ++ sep ++ sandwichJoin sep (q2 :: pt2),
          by simp⟩
      · rcases containsL_iff.mp (ih hp' hc) with ⟨u, v, huv⟩
        exact containsL_iff.mpr ⟨q ++ sep ++ u, v, by simp [huv]⟩

/-- `str.replace` cannot create an occurrence of `p'` out of nothing when
    `p'` cannot overlap the replacement text. -/
lemma replaceAllGo_noCreate {pat repl p' : List Char}
    (hnj : noJunction repl p' = true) (hpat : pat ≠ []) (hrepl : repl ≠ [])
    {l : List Char} (h : containsL p' (replaceAllGo pat repl 0 l) = true) :
    containsL p' l = true := by
  rcases @replaceAllGo_sandwich _ repl hpat l.length l (le_refl _) with
    ⟨ps, _, hjoin, hout⟩
  rw [hout] at h
  rcases containsL_sandwichJoin_piece hnj hrepl h with ⟨p, hp, hcp⟩
  rw [hjoin]
  exact containsL_sandwichJoin_of_piece hp hcp

/-- After a successful `str.replace`, the replacement text occurs in the
    output. -/
lemma replaceAllGo_contains_repl {pat repl : List Char} :
    ∀ {l : List Char}, containsL pat l = true → pat ≠ [] →
      containsL repl (replaceAllGo pat repl 0 l) = true := by
  intro l
  induction l with
  | nil =>
    intro h hpat
    simp only [containsL, List.isEmpty_iff] at h
    exact absurd h hpat
  | cons c rest ih =>
    intro h hpat
    rw [containsL_cons, Bool.or_eq_true] at h
    rw [replaceAllGo]
    by_cases hpre : pat.isPrefixOf (c :: rest)
    · rw [if_pos hpre]
      exact containsL_iff.mpr ⟨[], replaceAllGo pat repl (pat.length - 1) rest,
        by simp⟩
    · rw [if_neg hpre]
      rcases h with h | h
      · exact absurd h (by simp [hpre])
      · rcases containsL_iff.mp (ih h hpat) with ⟨u, v, huv⟩
        exact containsL_iff.mpr ⟨c :: u, v, by simp [huv]⟩

lemma pyContains_pyReplace_noCreate {s pat repl p' : String}
    (hnj : noJunction repl.toList p'.toList = true) (hpat : pat ≠ "")
    (hrepl : repl.toList ≠ [])
    (h : pyContains (pyReplace s pat repl) p' = true) :
    pyContains s p' = true := by
  unfold pyReplace at h
  rw [if_neg hpat] at h
  have hpat' : pat.toList ≠ [] := by
    intro hc
    exact hpat (by cases pat; simp_all [String.toList])
  exact replaceAllGo_noCreate hnj hpat' hrepl h

lemma pyContains_pyReplace_repl {s pat repl : String}
    (h : pyContains s pat = true) (hpat : pat ≠ "") :
    pyContains (pyReplace s pat repl) repl = true := by
  unfold pyReplace
  rw [if_neg hpat]
  have hpat' : pat.toList ≠ [] := by
    intro hc
    exact hpat (by cases pat; simp_all [String.toList])
  exact replaceAllGo_contains_repl h hpat'

lemma mk_toList (s : String) : (⟨s.toList⟩ : String) = s := rfl

lemma toList_mk (l : List Char) : (⟨l⟩ : String).toList = l := rfl

lemma pyJoinLines_pyLines (s : String) : pyJoinLines (pyLines s) = s := by
  unfold pyJoinLines pyLines
  rw [List.map_map]
  have : (String.toList ∘ fun l => (⟨l⟩ : String)) = id := rfl
  rw [this, List.map_id, joinNl_splitOnNl]
  rfl

lemma joinNl_eq_sandwichJoin : ∀ ls, joinNl ls = sandwichJoin ['\n'] ls
  | [] => rfl
  | [_] => rfl
  | l :: l' :: t => by
    show l ++ '\n' :: joinNl (l' :: t) = l ++ ['\n'] ++ sandwichJoin ['\n'] (l' :: t)
    rw [← joinNl_eq_sandwichJoin (l' :: t)]
    simp

lemma mem_pyLines_no_nl {s : String} : ∀ l ∈ pyLines s, '\n' ∉ l.toList := by
  intro l hl
  unfold pyLines at hl
  rcases List.mem_map.mp hl with ⟨piece, hpiece, rfl⟩
  exact mem_splitOnNl_no_nl piece hpiece

lemma pyContains_of_line {s l p : String} (hl : l ∈ pyLines s)
    (h : pyContains l p = true) : pyContains s p = true := by
  unfold pyLines at hl
  rcases List.mem_map.mp hl with ⟨piece, hpiece, rfl⟩
  unfold pyContains at h ⊢
  have : s.toList = joinNl (splitOnNl s.toList) := (joinNl_splitOnNl _).symm
  rw [this, joinNl_eq_sandwichJoin]
  exact containsL_sandwichJoin_of_piece hpiece h

lemma mem_pyLines_pyJoinLines {ls : List String}
    (hno : ∀ l ∈ ls, '\n' ∉ l.toList) :
    ∀ l' ∈ pyLines (pyJoinLines ls), l' ∈ ls ∨ l' = "" := by
  intro l' hl'
  cases hls : ls with
  | nil =>
    subst hls
    unfold pyJoinLines pyLines at hl'
    simp only [List.map_nil] at hl'
    show l' ∈ ([] : List String) ∨ l' = ""
    right
    simpa [joinNl, splitOnNl] using hl'
  | cons l0 t =>
    subst hls
    left
    unfold pyJoinLines pyLines at hl'
    rw [toList_mk, splitOnNl_joinNl _ (by simp) (by
      intro x hx
      rcases List.mem_map.mp hx with ⟨l1, hl1, rfl⟩
      exact hno l1 hl1)] at hl'
    rw [List.map_map] at hl'
    have hmapid : ((fun l => (⟨l⟩ : String)) ∘ String.toList) = id := by
      funext x
      exact mk_toList x
    rw [hmapid, List.map_id] at hl'
    exact hl'

lemma pyLines_pyJoinLines_eq {ls : List String} (hne : ls ≠ [])
    (hno : ∀ l ∈ ls, '\n' ∉ l.toList) : pyLines (pyJoinLines ls) = ls := by
  unfold pyJoinLines pyLines
  rw [toList_mk, splitOnNl_joinNl _ (by simpa using hne) (by
    intro x hx
    rcases List.mem_map.mp hx with ⟨l1, hl1, rfl⟩
    exact hno l1 hl1)]
  rw [List.map_map]
  have hmapid : ((fun l => (⟨l⟩ : String)) ∘ String.toList) = id := by
    funext x
    exact mk_toList x
  rw [hmapid, List.map_id]

lemma no_nl_pyReplace {l pat repl : String} (hl : '\n' ∉ l.toList)
    (hr : '\n' ∉ repl.toList) : '\n' ∉ (pyReplace l pat repl).toList := by
  unfold pyReplace
  split
  · exact hl
  · intro hmem
    rcases mem_replaceAllGo hmem with h | h
    · exact hl h
    · exact hr h

/-- Every line of `s` avoids `.add_tip(`. -/
def linesNoAddTip (s : String) : Prop :=
  ∀ l ∈ pyLines s, pyContains l ".add_tip(" = false

/-- Every line of `s` mentioning `(Scene)` also mentions `(VoiceoverScene)`. -/
def linesSceneOK (s : String) : Prop :=
  ∀ l ∈ pyLines s, pyContains l "(Scene)" = true →
    pyContains l "(VoiceoverScene)" = true

lemma pyLines_ne_nil (s : String) : pyLines s ≠ [] := by
  unfold pyLines
  intro h
  exact splitOnNl_ne_nil s.toList (List.map_eq_nil_iff.mp h)

lemma linesNoAddTip_of_global {s : String}
    (h : pyContains s ".add_tip(" = false) : linesNoAddTip s := by
  intro l hl
  cases hc : pyContains l ".add_tip(" with
  | false => rfl
  | true => exact absurd (pyContains_of_line hl hc) (by rw [h]; exact Bool.false_ne_true)

lemma mem_evImportsGo : ∀ {b : Bool} {ls : List String} {l' : String},
    l' ∈ evImportsGo b ls → l' ∈ ls ∨
      l' = "from manim_voiceover import VoiceoverScene" ∨
      l' = "from manim_voiceover.services.elevenlabs import ElevenLabsService" := by
  intro b ls
  induction ls generalizing b with
  | nil => intro l' h; simp [evImportsGo] at h
  | cons l t ih =>
    intro l' h
    rw [evImportsGo] at h
    split at h
    · rcases List.mem_cons.mp h with rfl | h
      · exact Or.inl (List.mem_cons_self _ _)
      · rcases List.mem_cons.mp h with rfl | h
        · exact Or.inr (Or.inl rfl)
        · rcases List.mem_cons.mp h with rfl | h
          · exact Or.inr (Or.inr rfl)
          · rcases ih h with h' | h' | h'
            · exact Or.inl (List.mem_cons_of_mem l h')
            · exact Or.inr (Or.inl h')
            · exact Or.inr (Or.inr h')
    · rcases List.mem_cons.mp h with rfl | h
      · exact Or.inl (List.mem_cons_self _ _)
      · rcases ih h with h' | h' | h'
        · exact Or.inl (List.mem_cons_of_mem l h')
        · exact Or.inr (Or.inl h')
        · exact Or.inr (Or.inr h')

lemma mem_essInitGo : ∀ {a b : Bool} {ls : List String} {l' : String},
    l' ∈ essInitGo a b ls → l' ∈ ls ∨
      l' = "        # Initialize ElevenLabs speech service for audio narration" ∨
      l' = "        self.set_speech_service(ElevenLabsService())" := by
  intro a b ls
  induction ls generalizing a b with
  | nil => intro l' h; simp [essInitGo] at h
  | cons l t ih =>
    intro l' h
    rw [essInitGo] at h
    split at h
    · rcases List.mem_cons.mp h with rfl | h
      · exact Or.inl (List.mem_cons_self _ _)
      · rcases ih h with h' | h' | h'
        · exact Or.inl (List.mem_cons_of_mem l h')
        · exact Or.inr (Or.inl h')
        · exact Or.inr (Or.inr h')
    · split at h
      · rcases List.mem_cons.mp h with rfl | h
        · exact Or.inl (List.mem_cons_self _ _)
        · rcases List.mem_cons.mp h with rfl | h
          · exact Or.inr (Or.inl rfl)
          · rcases List.mem_cons.mp h with rfl | h
            · exact Or.inr (Or.inr rfl)
            · rcases ih h with h' | h' | h'
              · exact Or.inl (List.mem_cons_of_mem l h')
              · exact Or.inr (Or.inl h')
              · exact Or.inr (Or.inr h')
      · rcases List.mem_cons.mp h with rfl | h
        · exact Or.inl (List.mem_cons_self _ _)
        · rcases ih h with h' | h' | h'
          · exact Or.inl (List.mem_cons_of_mem l h')
          · exact Or.inr (Or.inl h')
          · exact Or.inr (Or.inr h')

lemma containsL_through_block {m p' : List Char}
    (hTails : ∀ s ∈ m.tails, s = [] ∨ s.isPrefixOf p' = false)
    (hPM : containsL p' m = false) :
    ∀ {m' y : List Char}, m' <:+ m → m' ≠ [] →
      containsL p' (m' ++ y) = true → containsL p' y = true := by
  intro m' y hsuf hne h
  induction m' with
  | nil => exact absurd rfl hne
  | cons c t ih =>
    rw [List.cons_append, containsL_cons, Bool.or_eq_true] at h
    rcases h with h | h
    · exfalso
      have hp := List.isPrefixOf_iff_prefix.mp h
      rw [← List.cons_append] at hp
      rcases prefix_append_cases hp with hp' | ⟨hp', _⟩
      · rw [containsL_of_prefix_suffix hp' hsuf] at hPM
        exact Bool.true_eq_false.mp hPM
      · rcases hTails (c :: t) (List.mem_tails _ _ |>.mpr hsuf) with h' | h'
        · exact List.cons_ne_nil c t h'
        · rw [List.isPrefixOf_iff_prefix.mpr hp'] at h'
          exact Bool.true_eq_false.mp h'
    · cases t with
      | nil => simpa using h
      | cons c' t' =>
        exact ih (List.IsSuffix.trans (List.suffix_cons c (c' :: t')) hsuf)
          (List.cons_ne_nil c' t') h

/-- A decidable certificate that replacing `pat` by `repl` cannot create a
    fresh occurrence of `p'`: no occurrence of `p'` can start inside an
    inserted `repl`, `p'` and `repl` do not contain one another, and any
    nonempty prefix of `repl` that ends `p'` also begins `pat` (so the same
    occurrence already existed against `pat`). -/
def noCreateCert (pat repl p' : List Char) : Bool :=
  (repl.tails.all fun s => s.isEmpty || !s.isPrefixOf p') &&
  !containsL repl p' && !containsL p' repl &&
  (repl.inits.all fun r => r.isEmpty || !r.isSuffixOf p' || r.isPrefixOf pat)

lemma occurrence_transfer {pat repl p' : List Char}
    (hcert : noCreateCert pat repl p' = true) :
    ∀ {x yR yP : List Char},
      (containsL p' yR = true → containsL p' yP = true) →
      containsL p' (x ++ repl ++ yR) = true →
      containsL p' (x ++ pat ++ yP) = true := by
  have hcert' := hcert
  simp only [noCreateCert, Bool.and_eq_true, List.all_eq_true, Bool.or_eq_true,
    Bool.not_eq_eq_eq_not, Bool.not_true, List.isEmpty_iff] at hcert'
  obtain ⟨⟨⟨hTails, hRP⟩, hPR⟩, hInits⟩ := hcert'
  intro x yR yP htrans h
  induction x with
  | nil =>
    rw [List.nil_append] at h ⊢
    by_cases hrepl : repl = []
    · subst hrepl
      rw [List.nil_append] at h
      simpa using @containsL_mono _ _ pat ([] : List Char) (htrans h)
    · have hy := containsL_through_block hTails hPR List.suffix_rfl hrepl h
      simpa using @containsL_mono _ _ pat ([] : List Char) (htrans hy)
  | cons c x' ih =>
    rw [List.cons_append, List.cons_append, containsL_cons, Bool.or_eq_true] at h
    rcases h with h | h
    · have hp := List.isPrefixOf_iff_prefix.mp h
      rw [← List.cons_append, ← List.cons_append, List.append_assoc] at hp
      rcases prefix_append_cases hp with hp' | ⟨hpre, hp2⟩
      · rcases hp' with ⟨r, hr⟩
        exact containsL_iff.mpr ⟨[], r ++ pat ++ yP, by simp [← hr]⟩
      · by_cases hq : p'.drop (c :: x').length = []
        · have hlen : p'.length ≤ (c :: x').length := by
            have := List.drop_eq_nil_iff.mp hq
            omega
          have heq : c :: x' = p' :=
            hpre.eq_of_length (le_antisymm hpre.length_le hlen)
          exact containsL_iff.mpr ⟨[], pat ++ yP, by simp [heq]⟩
        · have hqsuf : p'.drop (c :: x').length <:+ p' := List.drop_suffix _ _
          rcases prefix_append_cases hp2 with hqm | ⟨hmq, _⟩
          · -- the tail q of p' is a nonempty prefix of repl ending p',
            -- hence by the certificate also a prefix of pat
            have hqpat : (p'.drop (c :: x').length).isPrefixOf pat = true := by
              rcases hInits _ (List.mem_inits _ _ |>.mpr hqm) with (h' | h') | h'
              · exact absurd h' hq
              · rw [List.isSuffixOf_iff_suffix.mpr hqsuf] at h'
                exact absurd h' (by simp)
              · exact h'
            rcases List.isPrefixOf_iff_prefix.mp hqpat with ⟨z, hz⟩
            rcases hpre with ⟨t, ht⟩
            have hteq : t = p'.drop (c :: x').length := by
              rw [← ht]
              simp
            refine containsL_iff.mpr ⟨[], z ++ yP, ?_⟩
            rw [List.nil_append, ← ht, hteq]
            rw [← hz]
            simp
          · exfalso
            rw [containsL_of_prefix_suffix hmq hqsuf] at hRP
            exact Bool.true_eq_false.mp hRP
    · have h' := ih h
      rw [List.cons_append, List.cons_append, containsL_cons, Bool.or_eq_true]
      exact Or.inr h'

lemma sandwich_transfer {pat repl p' : List Char}
    (hcert : noCreateCert pat repl p' = true) :
    ∀ {ps : List (List Char)},
      containsL p' (sandwichJoin repl ps) = true →
      containsL p' (sandwichJoin pat ps) = true := by
  intro ps
  induction ps with
  | nil => exact fun h => h
  | cons p pt ih =>
    cases pt with
    | nil => exact fun h => h
    | cons p2 pt2 =>
      intro h
      have hshapeR : sandwichJoin repl (p :: p2 :: pt2) =
          p ++ repl ++ sandwichJoin repl (p2 :: pt2) := rfl
      have hshapeP : sandwichJoin pat (p :: p2 :: pt2) =
          p ++ pat ++ sandwichJoin pat (p2 :: pt2) := rfl
      rw [hshapeR] at h
      rw [hshapeP]
      exact occurrence_transfer hcert ih h

/-- `str.replace(pat, repl)` cannot create an occurrence of `p'` when the
    certificate holds. -/
lemma replaceAllGo_noCreate2 {pat repl p' : List Char}
    (hcert : noCreateCert pat repl p' = true) (hpat : pat ≠ [])
    {l : List Char} (h : containsL p' (replaceAllGo pat repl 0 l) = true) :
    containsL p' l = true := by
  rcases @replaceAllGo_sandwich _ repl hpat l.length l (le_refl _) with
    ⟨ps, _, hjoin, hout⟩
  rw [hout] at h
  rw [hjoin]
  exact sandwich_transfer hcert h

lemma pyContains_pyReplace_noCreate2 {s pat repl p' : String}
    (hcert : noCreateCert pat.toList repl.toList p'.toList = true)
    (hpat : pat ≠ "")
    (h : pyContains (pyReplace s pat repl) p' = true) :
    pyContains s p' = true := by
  unfold pyReplace at h
  rw [if_neg hpat] at h
  have hpat' : pat.toList ≠ [] := by
    intro hc
    exact hpat (by cases pat; simp_all [String.toList])
  exact replaceAllGo_noCreate2 hcert hpat' h

lemma remove_incorrect_imports_Q {s : String} (h : linesNoAddTip s) :
    linesNoAddTip (remove_incorrect_imports s) := by
  intro l' hl'
  unfold remove_incorrect_imports at hl'
  have hno : ∀ x ∈ (pyLines s).filterMap riiLine, '\n' ∉ x.toList := by
    intro x hx
    rcases List.mem_filterMap.mp hx with ⟨l, hls, hf⟩
    unfold riiLine at hf
    split at hf
    · exact absurd hf (by simp)
    · split at hf
      · exact absurd hf (by simp)
      · split at hf
        · rw [Option.some_inj] at hf
          subst hf
          decide
        · split at hf
          · rw [Option.some_inj] at hf
            subst hf
            exact no_nl_pyReplace (mem_pyLines_no_nl l hls) (by decide)
          · rw [Option.some_inj] at hf
            subst hf
            exact mem_pyLines_no_nl l hls
  rcases mem_pyLines_pyJoinLines hno l' hl' with hmem | rfl
  · rcases List.mem_filterMap.mp hmem with ⟨l, hls, hf⟩
    unfold riiLine at hf
    split at hf
    · exact absurd hf (by simp)
    · split at hf
      · exact absurd hf (by simp)
      · split at hf
        · rw [Option.some_inj] at hf
          subst hf
          decide
        · split at hf
          · rw [Option.some_inj] at hf
            subst hf
            cases hc : pyContains
                (pyReplace l "from manim_voiceover.services.tts" "from services.tts")
                ".add_tip(" with
            | false => rfl
            | true =>
              exact absurd (pyContains_pyReplace_noCreate2 (by decide)
                (by decide) hc) (by rw [h l hls]; exact Bool.false_ne_true)
          · rw [Option.some_inj] at hf
            subst hf
            exact h l hls
  · decide

lemma remove_camera_Q {s : String} (h : linesNoAddTip s) :
    linesNoAddTip (remove_camera_orientation_calls s) := by
  intro l' hl'
  unfold remove_camera_orientation_calls at hl'
  have hno : ∀ x ∈ (pyLines s).filter
      (fun line => !pyStartsWith (pyStripStr line) "self.set_camera_orientation"),
      '\n' ∉ x.toList := by
    intro x hx
    exact mem_pyLines_no_nl x (List.mem_of_mem_filter hx)
  rcases mem_pyLines_pyJoinLines hno l' hl' with hmem | rfl
  · exact h l' (List.mem_of_mem_filter hmem)
  · decide

lemma fsLine_Q {l : String} (h : pyContains l ".add_tip(" = false) :
    pyContains (fsLine l) ".add_tip(" = false := by
  unfold fsLine
  split
  · cases hc : pyContains (pyReplace l "(Scene)" "(VoiceoverScene)") ".add_tip(" with
    | false => rfl
    | true =>
      exact absurd (pyContains_pyReplace_noCreate2 (by decide) (by decide) hc)
        (by rw [h]; exact Bool.false_ne_true)
  · exact h

lemma fsLine_P (l : String) : pyContains (fsLine l) "(Scene)" = true →
    pyContains (fsLine l) "(VoiceoverScene)" = true := by
  unfold fsLine
  split
  · rename_i hguard
    intro _
    rw [Bool.and_eq_true, Bool.not_eq_eq_eq_not, Bool.not_true] at hguard
    exact pyContains_pyReplace_repl hguard.1 (by decide)
  · rename_i hguard
    intro hsc
    rw [Bool.and_eq_true] at hguard
    push_neg at hguard
    cases hv : pyContains l "(VoiceoverScene)" with
    | true => rfl
    | false =>
      exfalso
      exact absurd (hguard hsc) (by rw [hv]; simp)

lemma fsLine_no_nl {l : String} (h : '\n' ∉ l.toList) :
    '\n' ∉ (fsLine l).toList := by
  unfold fsLine
  split
  · exact no_nl_pyReplace h (by decide)
  · exact h

lemma fix_scene_inheritance_Q {s : String} (h : linesNoAddTip s) :
    linesNoAddTip (fix_scene_inheritance s) := by
  intro l' hl'
  unfold fix_scene_inheritance at hl'
  have hno : ∀ x ∈ (pyLines s).map fsLine, '\n' ∉ x.toList := by
    intro x hx
    rcases List.mem_map.mp hx with ⟨l, hls, rfl⟩
    exact fsLine_no_nl (mem_pyLines_no_nl l hls)
  rcases mem_pyLines_pyJoinLines hno l' hl' with hmem | rfl
  · rcases List.mem_map.mp hmem with ⟨l, hls, rfl⟩
    exact fsLine_Q (h l hls)
  · decide

lemma fix_scene_inheritance_P (s : String) :
    linesSceneOK (fix_scene_inheritance s) := by
  intro l' hl'
  unfold fix_scene_inheritance at hl'
  have hno : ∀ x ∈ (pyLines s).map fsLine, '\n' ∉ x.toList := by
    intro x hx
    rcases List.mem_map.mp hx with ⟨l, hls, rfl⟩
    exact fsLine_no_nl (mem_pyLines_no_nl l hls)
  rcases mem_pyLines_pyJoinLines hno l' hl' with hmem | rfl
  · rcases List.mem_map.mp hmem with ⟨l, _, rfl⟩
    exact fsLine_P l
  · intro h; exact absurd h (by decide)

lemma ensure_voiceover_imports_pres {s : String} (hq : linesNoAddTip s)
    (hp : linesSceneOK s) :
    linesNoAddTip (ensure_voiceover_imports s) ∧
      linesSceneOK (ensure_voiceover_imports s) := by
  unfold ensure_voiceover_imports
  split
  · exact ⟨hq, hp⟩
  · split
    · exact ⟨hq, hp⟩
    · have hno : ∀ x ∈ evImportsGo false (pyLines s), '\n' ∉ x.toList := by
        intro x hx
        rcases mem_evImportsGo hx with h' | rfl | rfl
        · exact mem_pyLines_no_nl x h'
        · decide
        · decide
      constructor
      · intro l' hl'
        rcases mem_pyLines_pyJoinLines hno l' hl' with hmem | rfl
        · rcases mem_evImportsGo hmem with h' | rfl | rfl
          · exact hq l' h'
          · decide
          · decide
        · decide
      · intro l' hl'
        rcases mem_pyLines_pyJoinLines hno l' hl' with hmem | rfl
        · rcases mem_evImportsGo hmem with h' | rfl | rfl
          · exact hp l' h'
          · intro h; exact absurd h (by decide)
          · intro h; exact absurd h (by decide)
        · intro h; exact absurd h (by decide)

lemma remove_incompatible_methods_pres {s : String} (hq : linesNoAddTip s)
    (hp : linesSceneOK s) :
    linesNoAddTip (remove_incompatible_methods s) ∧
      linesSceneOK (remove_incompatible_methods s) := by
  unfold remove_incompatible_methods
  have hno : ∀ x ∈ (pyLines s).filter
      (fun line => !incompatiblePatterns.any fun pat =>
        pyContains (pyStripStr line) pat), '\n' ∉ x.toList := by
    intro x hx
    exact mem_pyLines_no_nl x (List.mem_of_mem_filter hx)
  constructor
  · intro l' hl'
    rcases mem_pyLines_pyJoinLines hno l' hl' with hmem | rfl
    · exact hq l' (List.mem_of_mem_filter hmem)
    · decide
  · intro l' hl'
    rcases mem_pyLines_pyJoinLines hno l' hl' with hmem | rfl
    · exact hp l' (List.mem_of_mem_filter hmem)
    · intro h; exact absurd h (by decide)

lemma fix_add_tip_parameters_id {s : String} (h : linesNoAddTip s) :
    fix_add_tip_parameters s = s := by
  unfold fix_add_tip_parameters
  have hmap : (pyLines s).map fatLine = pyLines s := by
    conv_rhs => rw [← List.map_id (pyLines s)]
    apply List.map_congr_left
    intro l hls
    unfold fatLine
    rw [if_neg]
    · rfl
    · rw [h l hls]
      simp
  rw [hmap, pyJoinLines_pyLines]

lemma ensure_speech_service_init_P {s : String} (hp : linesSceneOK s) :
    linesSceneOK (ensure_speech_service_init s) := by
  unfold ensure_speech_service_init
  split
  · exact hp
  · split
    · exact hp
    · have hno : ∀ x ∈ essInitGo false false (pyLines s), '\n' ∉ x.toList := by
        intro x hx
        rcases mem_essInitGo hx with h' | rfl | rfl
        · exact mem_pyLines_no_nl x h'
        · decide
        · decide
      intro l' hl'
      rcases mem_pyLines_pyJoinLines hno l' hl' with hmem | rfl
      · rcases mem_essInitGo hmem with h' | rfl | rfl
        · exact hp l' h'
        · intro h; exact absurd h (by decide)
        · intro h; exact absurd h (by decide)
      · intro h; exact absurd h (by decide)

lemma fsLine_idem (l : String) : fsLine (fsLine l) = fsLine l := by
  by_cases hg : (pyContains l "(Scene)" && !pyContains l "(VoiceoverScene)") = true
  · have h1 : fsLine l = pyReplace l "(Scene)" "(VoiceoverScene)" := by
      unfold fsLine
      rw [if_pos hg]
    rw [h1]
    unfold fsLine
    rw [if_neg]
    intro hg2
    rw [Bool.and_eq_true, Bool.not_eq_eq_eq_not, Bool.not_true] at hg hg2
    have hvo := @pyContains_pyReplace_repl _ _ "(VoiceoverScene)" hg.1 (by decide)
    rw [hvo] at hg2
    exact Bool.true_eq_false.mp hg2.2
  · have h1 : fsLine l = l := by
      unfold fsLine
      rw [if_neg hg]
    rw [h1, h1]

lemma fix_scene_inheritance_idem (code : String) :
    fix_scene_inheritance (fix_scene_inheritance code) =
      fix_scene_inheritance code := by
  unfold fix_scene_inheritance
  rw [pyLines_pyJoinLines_eq
    (by
      intro hnil
      exact pyLines_ne_nil code (List.map_eq_nil_iff.mp hnil))
    (by
      intro x hx
      rcases List.mem_map.mp hx with ⟨l, hls, rfl⟩
      exact fsLine_no_nl (mem_pyLines_no_nl l hls))]
  rw [List.map_map]
  congr 1
  exact List.map_congr_left (fun l _ => fsLine_idem l)

/-- C8 (amended): for inputs containing no `.add_tip(` call,
    `apply_all_manual_fixes` converts `(Scene)` inheritance so that every
    output line still mentioning `(Scene)` also mentions `(VoiceoverScene)`
    (lines already containing `(VoiceoverScene)` keep their `(Scene)`
    occurrences untouched); full idempotence fails in general, but the
    `(Scene)` rewriting pass `fix_scene_inheritance` itself is idempotent. -/
theorem apply_all_manual_fixes_scene_rewrite :
    (∀ (code : String) (vid : Option String),
      pyContains code ".add_tip(" = false →
      ∀ l ∈ pyLines (apply_all_manual_fixes code vid),
        pyContains l "(Scene)" = true →
          pyContains l "(VoiceoverScene)" = true) ∧
    (∀ code : String,
      fix_scene_inheritance (fix_scene_inheritance code) =
        fix_scene_inheritance code) := by
  constructor
  · intro code vid h0 l hl
    unfold apply_all_manual_fixes add_basic_voiceover_if_missing
      fix_color_constants at hl
    have q0 : linesNoAddTip code := linesNoAddTip_of_global h0
    have q1 := remove_incorrect_imports_Q q0
    have q2 := remove_camera_Q q1
    have q3 := fix_scene_inheritance_Q q2
    have p3 := fix_scene_inheritance_P
      (remove_camera_orientation_calls (remove_incorrect_imports code))
    have hev := ensure_voiceover_imports_pres q3 p3
    have hrim := remove_incompatible_methods_pres hev.1 hev.2
    have hfat := fix_add_tip_parameters_id hrim.1
    rw [hfat] at hl
    have hess := ensure_speech_service_init_P hrim.2
    exact hess l hl
  · exact fix_scene_inheritance_idem

/-- C8 witness: the amended statement applied to a concrete one-line input
    carrying both markers, and the idempotence part at a concrete scene. -/
theorem apply_all_manual_fixes_scene_rewrite_witness :
    pyContains "# (Scene) and (VoiceoverScene)" "(VoiceoverScene)" = true ∧
    fix_scene_inheritance (fix_scene_inheritance "class B(Scene): x") =
      fix_scene_inheritance "class B(Scene): x" :=
  ⟨apply_all_manual_fixes_scene_rewrite.1 "# (Scene) and (VoiceoverScene)" none
      (by decide) "# (Scene) and (VoiceoverScene)" (by decide) (by decide),
   apply_all_manual_fixes_scene_rewrite.2 "class B(Scene): x"⟩

/-- ASCII alphanumeric characters (the shape of the voice ids in use). -/
def isAsciiAlnum (c : Char) : Bool :=
  ('a' ≤ c && c ≤ 'z') || ('A' ≤ c && c ≤ 'Z') || ('0' ≤ c && c ≤ '9')

lemma isPrefixOf_append_cancel (P Q Z : List Char) :
    (P ++ Q).isPrefixOf (P ++ Z) = Q.isPrefixOf Z := by
  induction P with
  | nil => rfl
  | cons c P' ih => simpa [List.isPrefixOf] using ih

lemma matchSeq_lit_cancel (P Q Z : List Char) (rs : List RE) :
    matchSeq (.lit (P ++ Q) :: rs) (P ++ Z) = matchSeq (.lit Q :: rs) Z := by
  rw [matchSeq, matchSeq]
  show (match matchOne (.lit (P ++ Q)) (P ++ Z) with
    | some rest => matchSeq rs rest
    | none => none) =
    (match matchOne (.lit Q) Z with
    | some rest => matchSeq rs rest
    | none => none)
  rw [matchOne, matchOne, isPrefixOf_append_cancel]
  by_cases h : Q.isPrefixOf Z
  · rw [if_pos h, if_pos h]
    have : (P ++ Z).drop (P ++ Q).length = Z.drop Q.length := by
      rw [List.length_append, List.drop_append]
    rw [this]
  · rw [if_neg h, if_neg h]

lemma matchSeq_lit_none {L : List Char} (rs : List RE) {s : List Char}
    (h : L.isPrefixOf s = false) : matchSeq (.lit L :: rs) s = none := by
  rw [matchSeq]
  show (match matchOne (.lit L) s with
    | some rest => matchSeq rs rest
    | none => none) = none
  rw [matchOne, h]
  rfl

lemma lit_none_of_window {L X : List Char} (hXL : X <+: L) {w : List Char}
    (hx1 : X.isPrefixOf w = false) (hx2 : w.isPrefixOf X = false)
    (T : List Char) : L.isPrefixOf (w ++ T) = false := by
  cases hc : L.isPrefixOf (w ++ T) with
  | false => rfl
  | true =>
    exfalso
    have hXwT : X <+: w ++ T :=
      List.IsPrefix.trans hXL (List.isPrefixOf_iff_prefix.mp hc)
    rcases prefix_append_cases hXwT with h' | ⟨h', _⟩
    · rw [List.isPrefixOf_iff_prefix.mpr h'] at hx1
      exact Bool.true_eq_false.mp hx1
    · rw [List.isPrefixOf_iff_prefix.mpr h'] at hx2
      exact Bool.true_eq_false.mp hx2

lemma subGo_nil (pat : List RE) (rf : List Char → List Char) (first : Bool)
    (k : Nat) : subGo pat rf first k [] = [] := by
  cases k <;> rfl

lemma subGo_cons_noMatch {pat : List RE} {rf : List Char → List Char}
    {first : Bool} {c : Char} {rest : List Char}
    (h : matchSeq pat (c :: rest) = none) :
    subGo pat rf first 0 (c :: rest) = c :: subGo pat rf first 0 rest := by
  rw [subGo, h]

lemma subGo_skip {pat : List RE} {rf : List Char → List Char} {first : Bool} :
    ∀ {l : List Char} (k : Nat),
      subGo pat rf first k l = subGo pat rf first 0 (l.drop k) := by
  intro l
  induction l with
  | nil => intro k; cases k <;> simp [subGo]
  | cons a rest ih =>
    intro k
    cases k with
    | zero => simp
    | succ kk => rw [subGo, List.drop_succ_cons, ih kk]

lemma subGo_block {pat : List RE} {rf : List Char → List Char} {first : Bool} :
    ∀ {C T : List Char},
      (∀ i, i < C.length → matchSeq pat (C.drop i ++ T) = none) →
      subGo pat rf first 0 (C ++ T) = C ++ subGo pat rf first 0 T := by
  intro C
  induction C with
  | nil => intro T _; rfl
  | cons c C' ih =>
    intro T hall
    rw [List.cons_append,
      subGo_cons_noMatch (by simpa using hall 0 (by simp)), ih
        (fun i hi => by simpa using hall (i + 1) (by simpa using hi)),
      List.cons_append]

lemma subGo_window {L : List Char} {rs : List RE} {rf : List Char → List Char}
    {first : Bool} (X : List Char) (hXL : X <+: L) {C T : List Char}
    (hall : ∀ i, i < C.length →
      X.isPrefixOf (C.drop i) = false ∧ (C.drop i).isPrefixOf X = false) :
    subGo (.lit L :: rs) rf first 0 (C ++ T) =
      C ++ subGo (.lit L :: rs) rf first 0 T :=
  subGo_block (fun i hi =>
    matchSeq_lit_none rs (lit_none_of_window hXL (hall i hi).1 (hall i hi).2 T))

lemma subGo_cons_match {pat : List RE} {rf : List Char → List Char}
    {c : Char} {t remaining : List Char}
    (h : matchSeq pat (c :: t) = some remaining) :
    subGo pat rf false 0 (c :: t) =
      rf ((c :: t).take ((c :: t).length - remaining.length)) ++
        subGo pat rf false ((c :: t).length - remaining.length - 1) t := by
  rw [subGo, h]
  rfl

lemma subGo_match {pat : List RE} {rf : List Char → List Char}
    {m rest : List Char} (hm : matchSeq pat (m ++ rest) = some rest)
    (hne : m ≠ []) :
    subGo pat rf false 0 (m ++ rest) = rf m ++ subGo pat rf false 0 rest := by
  cases m with
  | nil => exact absurd rfl hne
  | cons c m' =>
    have hm' : matchSeq pat (c :: (m' ++ rest)) = some rest := hm
    rw [show ((c :: m') ++ rest : List Char) = c :: (m' ++ rest) from
      List.cons_append c m' rest]
    rw [subGo_cons_match hm']
    have hlen : (c :: (m' ++ rest)).length - rest.length = m'.length + 1 := by
      simp only [List.length_cons, List.length_append]
      omega
    rw [hlen]
    have htake : (c :: (m' ++ rest)).take (m'.length + 1) = c :: m' := by
      rw [List.take_succ_cons, List.take_left]
    rw [htake]
    have hskip : subGo pat rf false (m'.length + 1 - 1) (m' ++ rest) =
        subGo pat rf false 0 rest := by
      simp only [Nat.add_sub_cancel]
      rw [subGo_skip, List.drop_left]
    rw [hskip]

lemma lit_alnum_quote_false {d : Char} {L₂ : List Char}
    (hd : isAsciiAlnum d = false) (hd' : d ≠ '"') :
    ∀ (v' L₁ w : List Char),
      (∀ c ∈ L₁, isAsciiAlnum c = true) → (∀ c ∈ v', isAsciiAlnum c = true) →
      (L₁ ++ d :: L₂).isPrefixOf (v' ++ '"' :: w) = false := by
  intro v'
  induction v' with
  | nil =>
    intro L₁ w hL₁ _
    cases L₁ with
    | nil =>
      have hdq : (d == '"') = false := beq_eq_false_iff_ne.mpr hd'
      simp only [List.nil_append, List.isPrefixOf, hdq, Bool.false_and]
    | cons a L₁' =>
      have ha := hL₁ a (List.mem_cons_self a L₁')
      have haq : (a == '"') = false := by
        refine beq_eq_false_iff_ne.mpr ?_
        intro hc
        rw [hc] at ha
        exact absurd ha (by decide)
      simp only [List.cons_append, List.nil_append, List.isPrefixOf, haq,
        Bool.false_and]
  | cons b v'' ih =>
    intro L₁ w hL₁ hv
    cases L₁ with
    | nil =>
      have hb := hv b (List.mem_cons_self b v'')
      have hdb : (d == b) = false := by
        refine beq_eq_false_iff_ne.mpr ?_
        intro hc
        rw [← hc] at hb
        rw [hb] at hd
        exact Bool.true_eq_false.mp hd
      simp only [List.nil_append, List.cons_append, List.isPrefixOf, hdb,
        Bool.false_and]
    | cons a L₁' =>
      have h2 := ih L₁' w (fun c hc => hL₁ c (List.mem_cons_of_mem a hc))
        (fun c hc => hv c (List.mem_cons_of_mem b hc))
      simp only [List.cons_append, List.isPrefixOf]
      show (a == b && (L₁' ++ d :: L₂).isPrefixOf (v'' ++ '"' :: w)) = false
      rw [h2, Bool.and_false]

lemma subGo_alnum_block {L₁ L₂ : List Char} {d : Char} {rs : List RE}
    {rf : List Char → List Char} {first : Bool}
    (hL₁ : ∀ c ∈ L₁, isAsciiAlnum c = true) (hd : isAsciiAlnum d = false)
    (hd' : d ≠ '"') {v w : List Char} (hv : ∀ c ∈ v, isAsciiAlnum c = true) :
    subGo (.lit (L₁ ++ d :: L₂) :: rs) rf first 0 (v ++ '"' :: w) =
      v ++ subGo (.lit (L₁ ++ d :: L₂) :: rs) rf first 0 ('"' :: w) := by
  apply subGo_block
  intro i hi
  apply matchSeq_lit_none
  exact lit_alnum_quote_false hd hd' (v.drop i) L₁ w hL₁
    (fun c hc => hv c (List.mem_of_mem_drop hc))

lemma matchSeq_none_of_window {L X : List Char} (rs : List RE) (hXL : X <+: L)
    {w : List Char} (hx1 : X.isPrefixOf w = false) (hx2 : w.isPrefixOf X = false)
    (T : List Char) : matchSeq (.lit L :: rs) (w ++ T) = none :=
  matchSeq_lit_none rs (lit_none_of_window hXL hx1 hx2 T)

lemma matchSeq_none_of_window_nil {L X : List Char} (rs : List RE)
    (hXL : X <+: L) {w : List Char} (hx1 : X.isPrefixOf w = false)
    (hx2 : w.isPrefixOf X = false) : matchSeq (.lit L :: rs) w = none := by
  have h := matchSeq_none_of_window rs hXL hx1 hx2 []
  rwa [List.append_nil] at h

lemma subGo_all_none {pat : List RE} {rf : List Char → List Char} {first : Bool}
    {l : List Char} (hall : ∀ i, i < l.length → matchSeq pat (l.drop i) = none) :
    subGo pat rf first 0 l = l := by
  have h := @subGo_block pat rf first l []
    (fun i hi => by rw [List.append_nil]; exact hall i hi)
  rw [List.append_nil] at h
  rw [h, subGo_nil, List.append_nil]

/-- Identity of a `re.sub` pass whose pattern starts with the concrete literal
    `L₁ ++ d :: L₂` (alphanumeric head, then a delimiter) on a text of the
    shape `A ++ v ++ "..."` with `v` alphanumeric, when the literal is blocked
    at every window of the concrete regions. -/
lemma subAll_id_concreteLit (L₁ : List Char) (d : Char) (L₂ : List Char)
    (rs : List RE) (repl : List Char) (A v B1 : List Char)
    (hL₁ : ∀ c ∈ L₁, isAsciiAlnum c = true) (hd : isAsciiAlnum d = false)
    (hd' : d ≠ '"') (hv : ∀ c ∈ v, isAsciiAlnum c = true)
    (hwA : ∀ i, i < A.length → (L₁ ++ d :: L₂).isPrefixOf (A.drop i) = false ∧
      (A.drop i).isPrefixOf (L₁ ++ d :: L₂) = false)
    (hwB : ∀ i, i < ('"' :: B1).length →
      (L₁ ++ d :: L₂).isPrefixOf (('"' :: B1).drop i) = false ∧
      (('"' :: B1).drop i).isPrefixOf (L₁ ++ d :: L₂) = false) :
    subAll (.lit (L₁ ++ d :: L₂) :: rs) repl (A ++ (v ++ '"' :: B1)) =
      A ++ (v ++ '"' :: B1) := by
  unfold subAll
  rw [subGo_block (fun i hi => matchSeq_none_of_window rs ⟨[], List.append_nil _⟩
    (hwA i hi).1 (hwA i hi).2 _)]
  rw [subGo_alnum_block hL₁ hd hd' hv]
  rw [subGo_all_none (fun i hi => matchSeq_none_of_window_nil rs
    ⟨[], List.append_nil _⟩ (hwB i hi).1 (hwB i hi).2)]

/-- Identity of a `re.sub` pass whose pattern starts with the literal
    `(L₁ ++ d :: L₂p) ++ v ++ K2` (the selected voice id interpolated into the
    pattern): the concrete anchor `L₁ ++ d :: L₂p` is blocked at every window
    except the aligned position `i₀`, where the full match fails (`halign`). -/
lemma subAll_id_symLit (L₁ : List Char) (d : Char) (L₂p K2 : List Char)
    (rs : List RE) (repl : List Char) (A v B1 : List Char) (i₀ : Nat)
    (hL₁ : ∀ c ∈ L₁, isAsciiAlnum c = true) (hd : isAsciiAlnum d = false)
    (hd' : d ≠ '"') (hv : ∀ c ∈ v, isAsciiAlnum c = true)
    (hdrop : A.drop i₀ = L₁ ++ d :: L₂p)
    (halign : matchSeq (.lit ((L₁ ++ d :: L₂p) ++ (v ++ K2)) :: rs)
      ((L₁ ++ d :: L₂p) ++ (v ++ '"' :: B1)) = none)
    (hwA : ∀ i, i < A.length → i ≠ i₀ →
      (L₁ ++ d :: L₂p).isPrefixOf (A.drop i) = false ∧
      (A.drop i).isPrefixOf (L₁ ++ d :: L₂p) = false)
    (hwB : ∀ i, i < ('"' :: B1).length →
      (L₁ ++ d :: L₂p).isPrefixOf (('"' :: B1).drop i) = false ∧
      (('"' :: B1).drop i).isPrefixOf (L₁ ++ d :: L₂p) = false) :
    subAll (.lit ((L₁ ++ d :: L₂p) ++ (v ++ K2)) :: rs) repl
      (A ++ (v ++ '"' :: B1)) = A ++ (v ++ '"' :: B1) := by
  have hXpre : (L₁ ++ d :: L₂p) <+: ((L₁ ++ d :: L₂p) ++ (v ++ K2)) :=
    ⟨v ++ K2, rfl⟩
  have hform : ((L₁ ++ d :: L₂p) ++ (v ++ K2)) =
      L₁ ++ d :: (L₂p ++ (v ++ K2)) := by
    simp [List.append_assoc]
  have hA : ∀ i, i < A.length →
      matchSeq (.lit ((L₁ ++ d :: L₂p) ++ (v ++ K2)) :: rs)
        (A.drop i ++ (v ++ '"' :: B1)) = none := by
    intro i hi
    by_cases hie : i = i₀
    · subst hie
      rw [hdrop]
      exact halign
    · exact matchSeq_none_of_window rs hXpre (hwA i hi hie).1 (hwA i hi hie).2 _
  unfold subAll
  rw [subGo_block hA, hform, subGo_alnum_block hL₁ hd hd' hv,
    subGo_all_none (fun i hi => matchSeq_none_of_window_nil rs (hform ▸ hXpre)
      (hwB i hi).1 (hwB i hi).2)]

/-- Worker for Python `s.count(pat)`: non-overlapping occurrences, scanned
    left to right; the counter skips the tail of a counted occurrence. -/
def countOccurGo (pat : List Char) : Nat → List Char → Nat
  | _, [] => 0
  | k + 1, _ :: rest => countOccurGo pat k rest
  | 0, c :: rest =>
    if pat.isPrefixOf (c :: rest) then
      countOccurGo pat (pat.length - 1) rest + 1
    else countOccurGo pat 0 rest

/-- Python `s.count(pat)` for a non-empty pattern. -/
def countOccur (s pat : String) : Nat := countOccurGo pat.toList 0 s.toList

lemma countOccurGo_skip {pat : List Char} :
    ∀ {l : List Char} (k : Nat),
      countOccurGo pat k l = countOccurGo pat 0 (l.drop k) := by
  intro l
  induction l with
  | nil => intro k; cases k <;> simp [countOccurGo]
  | cons a rest ih =>
    intro k
    cases k with
    | zero => simp
    | succ kk => rw [countOccurGo, List.drop_succ_cons, ih kk]

lemma countOccurGo_cons_noMatch {pat : List Char} {c : Char} {rest : List Char}
    (h : pat.isPrefixOf (c :: rest) = false) :
    countOccurGo pat 0 (c :: rest) = countOccurGo pat 0 rest := by
  rw [countOccurGo, h]
  rfl

lemma countOccurGo_block {pat : List Char} :
    ∀ {C T : List Char},
      (∀ i, i < C.length → pat.isPrefixOf (C.drop i ++ T) = false) →
      countOccurGo pat 0 (C ++ T) = countOccurGo pat 0 T := by
  intro C
  induction C with
  | nil => intro T _; rfl
  | cons c C' ih =>
    intro T hall
    rw [List.cons_append,
      countOccurGo_cons_noMatch (by simpa using hall 0 (by simp))]
    exact ih (fun i hi => by simpa using hall (i + 1) (by simpa using hi))

lemma countOccurGo_match {pat : List Char} (hne : pat ≠ []) (T : List Char) :
    countOccurGo pat 0 (pat ++ T) = countOccurGo pat 0 T + 1 := by
  cases pat with
  | nil => exact absurd rfl hne
  | cons c p' =>
    rw [List.cons_append, countOccurGo]
    have hpre : (c :: p').isPrefixOf (c :: (p' ++ T)) = true := by
      rw [← List.cons_append]
      exact List.isPrefixOf_iff_prefix.mpr ⟨T, rfl⟩
    rw [if_pos hpre]
    have hsk : countOccurGo (c :: p') ((c :: p').length - 1) (p' ++ T) =
        countOccurGo (c :: p') 0 T := by
      rw [countOccurGo_skip]
      rw [show (c :: p').length - 1 = p'.length from by simp, List.drop_left]
    rw [hsk]

lemma countOccurGo_alnum_block {L₁ : List Char} {d : Char} {L₂ : List Char}
    (hL₁ : ∀ c ∈ L₁, isAsciiAlnum c = true) (hd : isAsciiAlnum d = false)
    (hd' : d ≠ '"') {v w : List Char} (hv : ∀ c ∈ v, isAsciiAlnum c = true) :
    countOccurGo (L₁ ++ d :: L₂) 0 (v ++ '"' :: w) =
      countOccurGo (L₁ ++ d :: L₂) 0 ('"' :: w) :=
  countOccurGo_block (fun i hi =>
    lit_alnum_quote_false hd hd' (v.drop i) L₁ w hL₁
      (fun c hc => hv c (List.mem_of_mem_drop hc)))

/-- A Stage-2-shaped scene with a bare `ElevenLabsService()` constructor, the
    input of the amended C4 theorem. -/
def codeC4 : String := "from manim import *\nfrom manim_voiceover import VoiceoverScene\nfrom manim_voiceover.services.elevenlabs import ElevenLabsService\n\nclass MyScene(VoiceoverScene):\n    def construct(self):\n        self.set_speech_service(ElevenLabsService())\n        with self.voiceover(text=\"Hi\") as tracker:\n            self.play(Create(Circle()))\n"

/-- A constructor call that already carries a conflicting
    `transcription_model` argument after its `voice_id`. -/
def cexC4Input : String := "self.set_speech_service(ElevenLabsService(voice_id=\"pNuYQqviK3X\", transcription_model=\"base\"))"

/-- The part of `codeC4` before the bare constructor call. -/
def c4D0 : String := "from manim import *\nfrom manim_voiceover import VoiceoverScene\nfrom manim_voiceover.services.elevenlabs import ElevenLabsService\n\nclass MyScene(VoiceoverScene):\n    def construct(self):\n        self.set_speech_service("

/-- The substring of `codeC4` matched by pattern 4 of
    `remove_transcription_params`. -/
def c4M : String := "ElevenLabsService()"

/-- The part of `codeC4` after the matched constructor call. -/
def c4R : String := ")\n        with self.voiceover(text=\"Hi\") as tracker:\n            self.play(Create(Circle()))\n"

/-- The output of `clean_manim_code codeC4` up to the inserted voice id. -/
def c4Pre : String := "from manim import *\nfrom manim_voiceover import VoiceoverScene\nfrom manim_voiceover.services.elevenlabs import ElevenLabsService\n\nclass MyScene(VoiceoverScene):\n    def construct(self):\n        self.set_speech_service(ElevenLabsService(voice_id=\""

/-- The output of `clean_manim_code codeC4` after the inserted voice id. -/
def c4Post : String := "\", transcription_model=None))\n        with self.voiceover(text=\"Hi\") as tracker:\n            self.play(Create(Circle()))\n"

/-- `c4Post` without its leading closing quote. -/
def c4Post1 : String := ", transcription_model=None))\n        with self.voiceover(text=\"Hi\") as tracker:\n            self.play(Create(Circle()))\n"

lemma string_mk_ne_empty {v : List Char} (hv : v ≠ []) : (⟨v⟩ : String) ≠ "" := by
  intro h
  apply hv
  have h2 := congrArg String.toList h
  simpa using h2

lemma selectVoiceId_toList {v : List Char} (hv : v ≠ []) :
    (selectVoiceId (some ⟨v⟩)).toList = v := by
  rw [show selectVoiceId (some ⟨v⟩) =
      if (⟨v⟩ : String) = "" then defaultVoiceId else ⟨v⟩ from rfl,
    if_neg (string_mk_ne_empty hv)]
  rfl

lemma remove_transcription_params_codeC4 (v : List Char) (hv : v ≠ [])
    (ha : ∀ c ∈ v, isAsciiAlnum c = true) :
    remove_transcription_params codeC4 (some ⟨v⟩) =
      ⟨c4Pre.toList ++ (v ++ c4Post.toList)⟩ := by
  have h1 : subAll
      [.lit "ElevenLabsService(".toList, .star pyIsSpace,
       .lit "transcription_model".toList, .star pyIsSpace, .lit "=".toList,
       .star pyIsSpace, .plus notCommaParen, .star pyIsSpace, .opt isComma,
       .star pyIsSpace]
      "ElevenLabsService(".toList codeC4.toList = codeC4.toList := by decide
  have h2 : subAll
      [.lit "ElevenLabsService(".toList, .star pyIsSpace, .lit "voice_id".toList,
       .star pyIsSpace, .lit "=".toList, .star pyIsSpace, .plus notCommaParen]
      ("ElevenLabsService(voice_id=\"".toList ++ v ++ "\"".toList)
      codeC4.toList = codeC4.toList := by
    unfold subAll
    exact subGo_all_none (by decide)
  have h3 : subAll
      [.lit "ElevenLabsService(".toList, .star pyIsSpace, .lit "voice_name".toList,
       .star pyIsSpace, .lit "=".toList, .star pyIsSpace, .plus notCommaParen,
       .star pyIsSpace, .opt isComma, .star pyIsSpace]
      "ElevenLabsService(".toList codeC4.toList = codeC4.toList := by decide
  have h4 : subAll
      [.lit "ElevenLabsService(".toList, .star pyIsSpace, .opt isComma,
       .star pyIsSpace, .lit ")".toList]
      ("ElevenLabsService(voice_id=\"".toList ++ v ++
        "\", transcription_model=None)".toList)
      codeC4.toList = c4Pre.toList ++ (v ++ c4Post.toList) := by
    unfold subAll
    rw [show codeC4.toList = c4D0.toList ++ (c4M.toList ++ c4R.toList) from rfl]
    rw [subGo_block (by decide)]
    rw [subGo_match (by decide) (by decide)]
    rw [subGo_all_none (by decide)]
    show c4D0.toList ++ (("ElevenLabsService(voice_id=\"".toList ++ v ++
      "\", transcription_model=None)".toList) ++ c4R.toList) =
      c4Pre.toList ++ (v ++ c4Post.toList)
    rw [show c4Pre.toList =
        c4D0.toList ++ "ElevenLabsService(voice_id=\"".toList from rfl,
      show c4Post.toList =
        "\", transcription_model=None)".toList ++ c4R.toList from rfl]
    simp [List.append_assoc]
  have halign5 : matchSeq
      [.lit (("ElevenLabsService".toList ++ '(' :: "voice_id=\"".toList) ++
        (v ++ "\")".toList))]
      (("ElevenLabsService".toList ++ '(' :: "voice_id=\"".toList) ++
        (v ++ '"' :: c4Post1.toList)) = none := by
    apply matchSeq_lit_none
    rw [isPrefixOf_append_cancel, isPrefixOf_append_cancel]
    decide
  have h5 : subAll
      [.lit ("ElevenLabsService(voice_id=\"".toList ++ v ++ "\")".toList)]
      ("ElevenLabsService(voice_id=\"".toList ++ v ++
        "\", transcription_model=None)".toList)
      (c4Pre.toList ++ (v ++ c4Post.toList)) =
      c4Pre.toList ++ (v ++ c4Post.toList) :=
    subAll_id_symLit "ElevenLabsService".toList '(' "voice_id=\"".toList
      "\")".toList []
      ("ElevenLabsService(voice_id=\"".toList ++ v ++
        "\", transcription_model=None)".toList)
      c4Pre.toList v c4Post1.toList 218
      (by decide) (by decide) (by decide) ha (by decide)
      halign5 (by decide) (by decide)
  have halign6 : matchSeq
      (.lit (("ElevenLabsService".toList ++ '(' :: "voice_id=\"".toList) ++
        (v ++ "\",".toList)) ::
        [.star pyIsSpace, .lit "model=\"".toList, .star notQuote,
         .lit "\"".toList, .opt isComma, .star pyIsSpace])
      (("ElevenLabsService".toList ++ '(' :: "voice_id=\"".toList) ++
        (v ++ '"' :: c4Post1.toList)) = none := by
    rw [matchSeq_lit_cancel, matchSeq_lit_cancel]
    decide
  have h6 : subAll
      [.lit ("ElevenLabsService(voice_id=\"".toList ++ v ++ "\",".toList),
       .star pyIsSpace, .lit "model=\"".toList, .star notQuote, .lit "\"".toList,
       .opt isComma, .star pyIsSpace]
      ("ElevenLabsService(voice_id=\"".toList ++ v ++ "\", ".toList)
      (c4Pre.toList ++ (v ++ c4Post.toList)) =
      c4Pre.toList ++ (v ++ c4Post.toList) :=
    subAll_id_symLit "ElevenLabsService".toList '(' "voice_id=\"".toList
      "\",".toList
      [.star pyIsSpace, .lit "model=\"".toList, .star notQuote, .lit "\"".toList,
       .opt isComma, .star pyIsSpace]
      ("ElevenLabsService(voice_id=\"".toList ++ v ++ "\", ".toList)
      c4Pre.toList v c4Post1.toList 218
      (by decide) (by decide) (by decide) ha (by decide)
      halign6 (by decide) (by decide)
  have h7 : subAll
      [.lit "GTTSService(".toList, .star notParen, .lit ")".toList]
      ("ElevenLabsService(voice_id=\"".toList ++ v ++
        "\", transcription_model=None)".toList)
      (c4Pre.toList ++ (v ++ c4Post.toList)) =
      c4Pre.toList ++ (v ++ c4Post.toList) :=
    subAll_id_concreteLit "GTTSService".toList '(' []
      [.star notParen, .lit ")".toList]
      ("ElevenLabsService(voice_id=\"".toList ++ v ++
        "\", transcription_model=None)".toList)
      c4Pre.toList v c4Post1.toList
      (by decide) (by decide) (by decide) ha (by decide) (by decide)
  have h8 : subAll
      [.lit "from manim_voiceover.services.gtts import GTTSService".toList]
      "from manim_voiceover.services.elevenlabs import ElevenLabsService".toList
      (c4Pre.toList ++ (v ++ c4Post.toList)) =
      c4Pre.toList ++ (v ++ c4Post.toList) :=
    subAll_id_concreteLit "from".toList ' '
      "manim_voiceover.services.gtts import GTTSService".toList []
      "from manim_voiceover.services.elevenlabs import ElevenLabsService".toList
      c4Pre.toList v c4Post1.toList
      (by decide) (by decide) (by decide) ha (by decide) (by decide)
  have h9 : subAll
      [.lit "RecorderService(".toList, .star notParen, .lit ")".toList]
      ("ElevenLabsService(voice_id=\"".toList ++ v ++
        "\", transcription_model=None)".toList)
      (c4Pre.toList ++ (v ++ c4Post.toList)) =
      c4Pre.toList ++ (v ++ c4Post.toList) :=
    subAll_id_concreteLit "RecorderService".toList '(' []
      [.star notParen, .lit ")".toList]
      ("ElevenLabsService(voice_id=\"".toList ++ v ++
        "\", transcription_model=None)".toList)
      c4Pre.toList v c4Post1.toList
      (by decide) (by decide) (by decide) ha (by decide) (by decide)
  have h10 : subAll
      [.lit "from manim_voiceover.services.recorder import RecorderService".toList,
       .star notNl, .opt (fun c => c = '\n')]
      [] (c4Pre.toList ++ (v ++ c4Post.toList)) =
      c4Pre.toList ++ (v ++ c4Post.toList) :=
    subAll_id_concreteLit "from".toList ' '
      "manim_voiceover.services.recorder import RecorderService".toList
      [.star notNl, .opt (fun c => c = '\n')] []
      c4Pre.toList v c4Post1.toList
      (by decide) (by decide) (by decide) ha (by decide) (by decide)
  simp only [remove_transcription_params]
  rw [selectVoiceId_toList hv]
  rw [h1, h2, h3, h4, h5, h6, h7, h8, h9, h10]

lemma ensure_elevenlabs_import_c4 (v : List Char) :
    ensure_elevenlabs_import ⟨c4Pre.toList ++ (v ++ c4Post.toList)⟩ =
      ⟨c4Pre.toList ++ (v ++ c4Post.toList)⟩ := by
  have hc : pyContains (⟨c4Pre.toList ++ (v ++ c4Post.toList)⟩ : String)
      elevenImportLine = true := by
    show containsL elevenImportLine.toList
      (c4Pre.toList ++ (v ++ c4Post.toList)) = true
    have h0 : containsL elevenImportLine.toList c4Pre.toList = true := by decide
    have h1 := @containsL_mono elevenImportLine.toList c4Pre.toList []
      (v ++ c4Post.toList) h0
    simpa using h1
  unfold ensure_elevenlabs_import
  rw [if_pos hc]

lemma clean_manim_code_codeC4 (v : List Char) (hv : v ≠ [])
    (ha : ∀ c ∈ v, isAsciiAlnum c = true) :
    clean_manim_code codeC4 (some ⟨v⟩) =
      ⟨c4Pre.toList ++ (v ++ c4Post.toList)⟩ := by
  unfold clean_manim_code
  rw [remove_transcription_params_codeC4 v hv ha, ensure_elevenlabs_import_c4 v]

/-- C4: amended. For every non-empty ASCII-alphanumeric voice id `v`, on the
    Stage-2-shaped scene `codeC4` (a bare `ElevenLabsService()` call with the
    narration import present), `clean_manim_code` produces exactly
    `c4Pre ++ v ++ c4Post`: a single narration-constructor call carrying the
    selected voice id and `transcription_model=None`.  The original universal
    claim over every input fails (see the counterexample theorem). -/
theorem clean_manim_code_single_constructor (v : List Char) (hv : v ≠ [])
    (ha : ∀ c ∈ v, isAsciiAlnum c = true) :
    clean_manim_code codeC4 (some ⟨v⟩) = ⟨c4Pre.toList ++ (v ++ c4Post.toList)⟩ ∧
    countOccur (clean_manim_code codeC4 (some ⟨v⟩)) "ElevenLabsService(" = 1 ∧
    pyContains (clean_manim_code codeC4 (some ⟨v⟩))
      ⟨"ElevenLabsService(voice_id=\"".toList ++ v ++
        "\", transcription_model=None)".toList⟩ = true := by
  have hmain := clean_manim_code_codeC4 v hv ha
  refine ⟨hmain, ?_, ?_⟩
  · rw [hmain]
    show countOccurGo "ElevenLabsService(".toList 0
      (c4Pre.toList ++ (v ++ c4Post.toList)) = 1
    have e : c4Pre.toList ++ (v ++ c4Post.toList) =
        c4D0.toList ++ ("ElevenLabsService(".toList ++
          ("voice_id=\"".toList ++ (v ++ c4Post.toList))) := by
      rw [show c4Pre.toList = (c4D0.toList ++ "ElevenLabsService(".toList) ++
        "voice_id=\"".toList from rfl]
      simp [List.append_assoc]
    rw [e]
    have hwD0 : ∀ i, i < c4D0.toList.length →
        "ElevenLabsService(".toList.isPrefixOf (c4D0.toList.drop i) = false ∧
        (c4D0.toList.drop i).isPrefixOf "ElevenLabsService(".toList = false := by
      decide
    rw [countOccurGo_block (fun i hi =>
      lit_none_of_window ⟨[], List.append_nil _⟩ (hwD0 i hi).1 (hwD0 i hi).2 _)]
    rw [countOccurGo_match (by decide)]
    have hwKR : ∀ i, i < "voice_id=\"".toList.length →
        "ElevenLabsService(".toList.isPrefixOf
          ("voice_id=\"".toList.drop i) = false ∧
        ("voice_id=\"".toList.drop i).isPrefixOf
          "ElevenLabsService(".toList = false := by
      decide
    rw [countOccurGo_block (fun i hi =>
      lit_none_of_window ⟨[], List.append_nil _⟩ (hwKR i hi).1 (hwKR i hi).2 _)]
    rw [show c4Post.toList = '"' :: c4Post1.toList from rfl]
    have hal := @countOccurGo_alnum_block "ElevenLabsService".toList '(' []
      (by decide) (by decide) (by decide) v c4Post1.toList ha
    rw [show ("ElevenLabsService".toList ++ '(' :: ([] : List Char)) =
      "ElevenLabsService(".toList from rfl] at hal
    rw [hal]
    rw [show countOccurGo "ElevenLabsService(".toList 0
      ('"' :: c4Post1.toList) = 0 from by decide]
  · rw [hmain]
    show containsL ("ElevenLabsService(voice_id=\"".toList ++ v ++
      "\", transcription_model=None)".toList)
      (c4Pre.toList ++ (v ++ c4Post.toList)) = true
    have e2 : c4Pre.toList ++ (v ++ c4Post.toList) =
        c4D0.toList ++ ("ElevenLabsService(voice_id=\"".toList ++ v ++
          "\", transcription_model=None)".toList) ++ c4R.toList := by
      rw [show c4Pre.toList =
          c4D0.toList ++ "ElevenLabsService(voice_id=\"".toList from rfl,
        show c4Post.toList =
          "\", transcription_model=None)".toList ++ c4R.toList from rfl]
      simp [List.append_assoc]
    rw [e2]
    exact containsL_sandwich

/-- C4 witness: the amended theorem applied to the concrete voice id
    `pNuYQqviK3Xw`. -/
theorem clean_manim_code_single_constructor_witness :
    ("pNuYQqviK3Xw".toList ≠ [] ∧
      (∀ c ∈ "pNuYQqviK3Xw".toList, isAsciiAlnum c = true)) ∧
    (clean_manim_code codeC4 (some ⟨"pNuYQqviK3Xw".toList⟩) =
      ⟨c4Pre.toList ++ ("pNuYQqviK3Xw".toList ++ c4Post.toList)⟩ ∧
    countOccur (clean_manim_code codeC4 (some ⟨"pNuYQqviK3Xw".toList⟩))
      "ElevenLabsService(" = 1 ∧
    pyContains (clean_manim_code codeC4 (some ⟨"pNuYQqviK3Xw".toList⟩))
      ⟨"ElevenLabsService(voice_id=\"".toList ++ "pNuYQqviK3Xw".toList ++
        "\", transcription_model=None)".toList⟩ = true) :=
  ⟨⟨by decide, by decide⟩,
    clean_manim_code_single_constructor "pNuYQqviK3Xw".toList
      (by decide) (by decide)⟩

/-- C4 counterexample: a constructor whose `voice_id` argument precedes a
    conflicting `transcription_model` argument keeps that argument (pattern 1
    only fires when `transcription_model` directly follows the opening
    parenthesis), so the output carries `transcription_model="base"` and no
    `transcription_model=None`; and on the empty input the output contains no
    narration-constructor call at all. -/
theorem clean_manim_code_not_single_constructor :
    pyContains (clean_manim_code cexC4Input (some "pNuYQqviK3Xw"))
      "transcription_model=\"base\"" = true ∧
    pyContains (clean_manim_code cexC4Input (some "pNuYQqviK3Xw"))
      "transcription_model=None" = false ∧
    countOccur (clean_manim_code "" (some "pNuYQqviK3Xw"))
      "ElevenLabsService(" = 0 := by
  decide

/-- Python string-prefix letters `[fFbBrRuU]` of `VOICEOVER_PATTERN`. -/
def pyStrPrefixChar (c : Char) : Bool :=
  c = 'f' || c = 'F' || c = 'b' || c = 'B' || c = 'r' || c = 'R' ||
    c = 'u' || c = 'U'

/-- Greedy `[fFbBrRuU]{0,2}`.  Its character class is disjoint from every
    quote character, so the greedy match agrees with Python backtracking. -/
def takePrefix2 (s : List Char) : List Char × List Char :=
  match s with
  | [] => ([], [])
  | [c1] => if pyStrPrefixChar c1 then ([c1], []) else ([], [c1])
  | c1 :: c2 :: rest =>
    if pyStrPrefixChar c1 then
      if pyStrPrefixChar c2 then ([c1, c2], rest) else ([c1], c2 :: rest)
    else ([], c1 :: c2 :: rest)

/-- Non-greedy `.*?` (DOTALL) followed by the closing quote `q`: the text up
    to the first occurrence of `q` and the remainder after it. -/
def scanClose (q : List Char) : List Char → Option (List Char × List Char)
  | [] => none
  | c :: t =>
    if q.isPrefixOf (c :: t) then some ([], (c :: t).drop q.length)
    else
      match scanClose q t with
      | some (text, r) => some (c :: text, r)
      | none => none

/-- One alternative of the quote alternation: opening quote `q`, then the
    non-greedy text, then the closing `q`; fails when `q` does not open here
    or never closes (then Python backtracks into the next alternative). -/
def tryQuote (q s : List Char) : Option (List Char × (List Char × List Char)) :=
  if q.isPrefixOf s then
    match scanClose q (s.drop q.length) with
    | some (text, rest) => some (q, (text, rest))
    | none => none
  else none

/-- The ordered alternation of quotes of `VOICEOVER_PATTERN`. -/
def voQuote (s : List Char) : Option (List Char × (List Char × List Char)) :=
  match tryQuote "\"\"\"".toList s with
  | some r => some r
  | none =>
    match tryQuote "'''".toList s with
    | some r => some r
    | none =>
      match tryQuote "\"".toList s with
      | some r => some r
      | none => tryQuote "'".toList s

/-- The optional group `(?:text\s*=\s*)?`.  When the group matches, a
    continuation failure cannot be rescued by skipping it (the text then
    starts with `t`, which no prefix or quote matches), and the greedy
    whitespace stars border classes disjoint from their successors, so this
    deterministic reading agrees with Python backtracking. -/
def voAfterTextEq (s1 : List Char) : List Char :=
  if "text".toList.isPrefixOf s1 then
    let u := (s1.drop 4).dropWhile pyIsSpace
    if "=".toList.isPrefixOf u then (u.drop 1).dropWhile pyIsSpace else s1
  else s1

/-- One attempted match of `VOICEOVER_PATTERN` at the head of `s`: on success
    the captured prefix, quote and text, and the remainder after the match. -/
def matchVoiceover (s : List Char) :
    Option (List Char × (List Char × (List Char × List Char))) :=
  if "self.voiceover(".toList.isPrefixOf s then
    let s1 := (s.drop 15).dropWhile pyIsSpace
    let p := takePrefix2 (voAfterTextEq s1)
    (voQuote p.2).map (fun r => (p.1, r))
  else none

/-- Loop body of the `for match in VOICEOVER_PATTERN.finditer(...)` loop:
    `prefix.lower()`, then the `ast.literal_eval` branch.  An `f` prefix keeps
    the raw text; a `b` prefix yields bytes, which the `isinstance(str)`
    check discards; otherwise `literal_eval` returns the text itself (the
    matched texts contain no backslash escapes, where this model is exact). -/
def voSegment (pfx text : List Char) : Option (List Char) :=
  let pl := pfx.map pyLowerChar
  if pl.contains 'f' then some text
  else if pl.contains 'b' then none
  else some text

/-- Worker for Python `str.split()`: maximal whitespace-free words. -/
def splitWsGo : List Char → List Char → List (List Char)
  | acc, [] => if acc.isEmpty then [] else [acc.reverse]
  | acc, c :: rest =>
    if pyIsSpace c then
      if acc.isEmpty then splitWsGo [] rest
      else acc.reverse :: splitWsGo [] rest
    else splitWsGo (c :: acc) rest

/-- Python `s.split()` (no argument: split on whitespace runs). -/
def pySplitWs (l : List Char) : List (List Char) := splitWsGo [] l

/-- Python `" ".join(ws)`. -/
def joinSpace : List (List Char) → List Char
  | [] => []
  | [w] => w
  | w :: x :: ws => w ++ ' ' :: joinSpace (x :: ws)

/-- Python `" ".join(s.split())`. -/
def collapseWs (l : List Char) : List Char := joinSpace (pySplitWs l)

/-- Scan of `finditer`: try a match at every position, left to right; after a
    match continue at its end.  The counter skips the consumed characters of
    a match (every match is non-empty, it starts with a 15-character
    literal). -/
def extractGo : Nat → List Char → List (List Char)
  | _, [] => []
  | k + 1, _ :: rest => extractGo k rest
  | 0, c :: rest =>
    match matchVoiceover (c :: rest) with
    | some (pfx, (_q, (text, after))) =>
      let seg :=
        match voSegment pfx text with
        | some t => collapseWs t
        | none => []
      if seg = [] then extractGo ((c :: rest).length - after.length - 1) rest
      else seg :: extractGo ((c :: rest).length - after.length - 1) rest
    | none => extractGo 0 rest

/-- `extract_voiceover_script` from `dev/generator_logic.py` (lines 22-54). -/
def extract_voiceover_script (manim_code : String) : String :=
  if manim_code = "" then ""
  else ⟨joinSpace (extractGo 0 manim_code.toList)⟩

/-- Characters allowed in the symbolic narration texts of the C7 theorem:
    ASCII alphanumerics and the space. -/
def isVoText (c : Char) : Bool := isAsciiAlnum c || c = ' '

/-- The two-call template of the C7 claim: an unrelated line, a
    `text="..."` voiceover call and a positional `"..."` voiceover call. -/
def voSource (a b : List Char) : String :=
  ⟨"x = 1\n".toList ++ ("self.voiceover(text=\"".toList ++
    (a ++ '"' :: (")\n".toList ++ ("self.voiceover(\"".toList ++
      (b ++ '"' :: ")\n".toList)))))⟩

lemma voText_ne_quote {c : Char} (h : isVoText c = true) : (c == '"') = false := by
  refine beq_eq_false_iff_ne.mpr ?_
  intro hc
  subst hc
  exact absurd h (by decide)

lemma scanClose_no_occ {q : Char} {T : List Char} :
    ∀ {a : List Char}, (∀ c ∈ a, (c == q) = false) →
      scanClose [q] (a ++ q :: T) = some (a, T) := by
  intro a
  induction a with
  | nil =>
    intro _
    rw [List.nil_append, scanClose]
    rw [if_pos (by simp [List.isPrefixOf])]
    rfl
  | cons c a' ih =>
    intro h
    rw [List.cons_append, scanClose]
    have hqc : (q == c) = false := by
      refine beq_eq_false_iff_ne.mpr ?_
      exact fun he => (beq_eq_false_iff_ne.mp (h c (List.mem_cons_self c a'))) he.symm
    have hc : ([q].isPrefixOf (c :: (a' ++ q :: T))) = false := by
      simp [List.isPrefixOf, hqc]
    rw [if_neg (by simp [hc])]
    rw [ih (fun c hc => h c (List.mem_cons_of_mem _ hc))]

lemma voQuote_dq {c₀ : Char} {a' T : List Char}
    (hc₀ : (c₀ == '"') = false) (hq : ∀ c ∈ a', (c == '"') = false) :
    voQuote ('"' :: c₀ :: (a' ++ '"' :: T)) = some (['"'], (c₀ :: a', T)) := by
  have h2 : (('"' : Char) == c₀) = false := by
    refine beq_eq_false_iff_ne.mpr ?_
    exact fun he => (beq_eq_false_iff_ne.mp hc₀) he.symm
  have h1 : ("\"\"\"".toList.isPrefixOf ('"' :: c₀ :: (a' ++ '"' :: T))) = false := by
    simp [List.isPrefixOf, h2]
  have h3 : ("'''".toList.isPrefixOf ('"' :: c₀ :: (a' ++ '"' :: T))) = false := by
    simp [List.isPrefixOf]
  have h4 : ("\"".toList.isPrefixOf ('"' :: c₀ :: (a' ++ '"' :: T))) = true := by
    simp [List.isPrefixOf]
  have h5 : scanClose "\"".toList
      (('"' :: c₀ :: (a' ++ '"' :: T)).drop "\"".toList.length) =
      some (c₀ :: a', T) := by
    rw [show (('"' :: c₀ :: (a' ++ '"' :: T)).drop "\"".toList.length :
        List Char) = (c₀ :: a') ++ '"' :: T from rfl]
    refine scanClose_no_occ ?_
    intro c hc
    rcases List.mem_cons.mp hc with h | h
    · subst h; exact hc₀
    · exact hq c h
  rw [voQuote]
  rw [show tryQuote "\"\"\"".toList ('"' :: c₀ :: (a' ++ '"' :: T)) = none from by
    rw [tryQuote, h1]
    rfl]
  dsimp only
  rw [show tryQuote "'''".toList ('"' :: c₀ :: (a' ++ '"' :: T)) = none from by
    rw [tryQuote, h3]
    rfl]
  dsimp only
  rw [tryQuote, if_pos h4, h5]
  rfl

lemma matchVoiceover_textEq {a T : List Char} (hane : a ≠ [])
    (hq : ∀ c ∈ a, (c == '"') = false) :
    matchVoiceover ("self.voiceover(text=\"".toList ++ (a ++ '"' :: T)) =
      some ([], (['"'], (a, T))) := by
  cases a with
  | nil => exact absurd rfl hane
  | cons c₀ a' =>
    have step1 : matchVoiceover
        ("self.voiceover(text=\"".toList ++ ((c₀ :: a') ++ '"' :: T)) =
        (voQuote ('"' :: c₀ :: (a' ++ '"' :: T))).map
          (fun r => (([] : List Char), r)) := rfl
    rw [step1, voQuote_dq (hq c₀ (List.mem_cons_self c₀ a'))
      (fun c hc => hq c (List.mem_cons_of_mem c₀ hc))]
    rfl

lemma matchVoiceover_plain {b T : List Char} (hbne : b ≠ [])
    (hq : ∀ c ∈ b, (c == '"') = false) :
    matchVoiceover ("self.voiceover(\"".toList ++ (b ++ '"' :: T)) =
      some ([], (['"'], (b, T))) := by
  cases b with
  | nil => exact absurd rfl hbne
  | cons c₀ b' =>
    have step1 : matchVoiceover
        ("self.voiceover(\"".toList ++ ((c₀ :: b') ++ '"' :: T)) =
        (voQuote ('"' :: c₀ :: (b' ++ '"' :: T))).map
          (fun r => (([] : List Char), r)) := rfl
    rw [step1, voQuote_dq (hq c₀ (List.mem_cons_self c₀ b'))
      (fun c hc => hq c (List.mem_cons_of_mem c₀ hc))]
    rfl

lemma matchVoiceover_none {s : List Char}
    (h : "self.voiceover(".toList.isPrefixOf s = false) :
    matchVoiceover s = none := by
  rw [matchVoiceover, h]
  rfl

lemma extractGo_skip : ∀ {l : List Char} (k : Nat),
    extractGo k l = extractGo 0 (l.drop k) := by
  intro l
  induction l with
  | nil => intro k; cases k <;> simp [extractGo]
  | cons a rest ih =>
    intro k
    cases k with
    | zero => simp
    | succ kk => rw [extractGo, List.drop_succ_cons, ih kk]

lemma extractGo_cons_noMatch {c : Char} {rest : List Char}
    (h : matchVoiceover (c :: rest) = none) :
    extractGo 0 (c :: rest) = extractGo 0 rest := by
  rw [extractGo, h]

lemma extractGo_block : ∀ {C T : List Char},
    (∀ i, i < C.length → matchVoiceover (C.drop i ++ T) = none) →
    extractGo 0 (C ++ T) = extractGo 0 T := by
  intro C
  induction C with
  | nil => intro T _; rfl
  | cons c C' ih =>
    intro T hall
    rw [List.cons_append,
      extractGo_cons_noMatch (by simpa using hall 0 (by simp))]
    exact ih (fun i hi => by simpa using hall (i + 1) (by simpa using hi))

lemma extractGo_cons_match {c : Char} {t pfx q text after tseg : List Char}
    (h : matchVoiceover (c :: t) = some (pfx, (q, (text, after))))
    (hseg : voSegment pfx text = some tseg) (hcl : collapseWs tseg ≠ []) :
    extractGo 0 (c :: t) =
      collapseWs tseg :: extractGo ((c :: t).length - after.length - 1) t := by
  rw [extractGo, h]
  dsimp only
  rw [hseg]
  dsimp only
  rw [if_neg hcl]

lemma extractGo_match {pfx q text tseg m after : List Char}
    (hm : matchVoiceover (m ++ after) = some (pfx, (q, (text, after))))
    (hne : m ≠ []) (hseg : voSegment pfx text = some tseg)
    (hcl : collapseWs tseg ≠ []) :
    extractGo 0 (m ++ after) = collapseWs tseg :: extractGo 0 after := by
  cases m with
  | nil => exact absurd rfl hne
  | cons c m' =>
    have hm' : matchVoiceover (c :: (m' ++ after)) =
        some (pfx, (q, (text, after))) := hm
    rw [show ((c :: m') ++ after : List Char) = c :: (m' ++ after) from
      List.cons_append c m' after]
    rw [extractGo_cons_match hm' hseg hcl]
    have hlen : (c :: (m' ++ after)).length - after.length - 1 = m'.length := by
      simp only [List.length_cons, List.length_append]
      omega
    rw [hlen]
    have hsk : extractGo m'.length (m' ++ after) = extractGo 0 after := by
      rw [extractGo_skip, List.drop_left]
    rw [hsk]

lemma append_cons_ne_nil (x y : List Char) (c : Char) (z : List Char) :
    x ++ (y ++ c :: z) ≠ [] := by
  intro h
  have h2 := congrArg List.length h
  simp only [List.length_append, List.length_cons, List.length_nil] at h2
  omega

/-- C7: on the two-call template, `extract_voiceover_script` returns the two
    narration texts in source order, each with its whitespace runs collapsed
    to single spaces, joined by a single space — for all alphanumeric-and-space
    texts whose collapse is non-empty; and on the claim's concrete instance
    the result is exactly "Hello world Second line". -/
theorem extract_voiceover_script_two_calls (a b : List Char)
    (ha : ∀ c ∈ a, isVoText c = true) (hb : ∀ c ∈ b, isVoText c = true)
    (hca : collapseWs a ≠ []) (hcb : collapseWs b ≠ []) :
    (extract_voiceover_script (voSource a b) =
      ⟨collapseWs a ++ ' ' :: collapseWs b⟩) ∧
    extract_voiceover_script
      (voSource "Hello   world".toList "Second   line".toList) =
      "Hello world Second line" := by
  constructor
  · have hane : a ≠ [] := by
      intro h
      exact hca (by rw [h]; rfl)
    have hbne : b ≠ [] := by
      intro h
      exact hcb (by rw [h]; rfl)
    have hqa : ∀ c ∈ a, (c == '"') = false :=
      fun c hc => voText_ne_quote (ha c hc)
    have hqb : ∀ c ∈ b, (c == '"') = false :=
      fun c hc => voText_ne_quote (hb c hc)
    have hw0 : ∀ i, i < "x = 1\n".toList.length →
        "self.voiceover(".toList.isPrefixOf ("x = 1\n".toList.drop i) = false ∧
        ("x = 1\n".toList.drop i).isPrefixOf "self.voiceover(".toList = false := by
      decide
    have hw1 : ∀ i, i < ")\n".toList.length →
        "self.voiceover(".toList.isPrefixOf (")\n".toList.drop i) = false ∧
        (")\n".toList.drop i).isPrefixOf "self.voiceover(".toList = false := by
      decide
    have hm1 : matchVoiceover (("self.voiceover(text=\"".toList ++ (a ++ ['"'])) ++
        (")\n".toList ++ ("self.voiceover(\"".toList ++
          (b ++ '"' :: ")\n".toList)))) =
        some ([], (['"'], (a, ")\n".toList ++ ("self.voiceover(\"".toList ++
          (b ++ '"' :: ")\n".toList))))) := by
      rw [show (("self.voiceover(text=\"".toList ++ (a ++ ['"'])) ++
          (")\n".toList ++ ("self.voiceover(\"".toList ++
            (b ++ '"' :: ")\n".toList))) : List Char) =
          "self.voiceover(text=\"".toList ++ (a ++ '"' ::
            (")\n".toList ++ ("self.voiceover(\"".toList ++
              (b ++ '"' :: ")\n".toList)))) from by
        simp [List.append_assoc]]
      exact matchVoiceover_textEq hane hqa
    have hm2 : matchVoiceover (("self.voiceover(\"".toList ++ (b ++ ['"'])) ++
        ")\n".toList) = some ([], (['"'], (b, ")\n".toList))) := by
      rw [show (("self.voiceover(\"".toList ++ (b ++ ['"'])) ++
          ")\n".toList : List Char) =
          "self.voiceover(\"".toList ++ (b ++ '"' :: ")\n".toList) from by
        simp [List.append_assoc]]
      exact matchVoiceover_plain hbne hqb
    have hlist : extractGo 0 ("x = 1\n".toList ++
        ("self.voiceover(text=\"".toList ++ (a ++ '"' ::
          (")\n".toList ++ ("self.voiceover(\"".toList ++
            (b ++ '"' :: ")\n".toList)))))) =
        [collapseWs a, collapseWs b] := by
      rw [extractGo_block (fun i hi => matchVoiceover_none
        (lit_none_of_window ⟨[], List.append_nil _⟩ (hw0 i hi).1 (hw0 i hi).2 _))]
      rw [show ("self.voiceover(text=\"".toList ++ (a ++ '"' ::
          (")\n".toList ++ ("self.voiceover(\"".toList ++
            (b ++ '"' :: ")\n".toList)))) : List Char) =
          ("self.voiceover(text=\"".toList ++ (a ++ ['"'])) ++
          (")\n".toList ++ ("self.voiceover(\"".toList ++
            (b ++ '"' :: ")\n".toList))) from by
        simp [List.append_assoc]]
      rw [extractGo_match hm1 (append_cons_ne_nil _ _ _ _) rfl hca]
      rw [extractGo_block (fun i hi => matchVoiceover_none
        (lit_none_of_window ⟨[], List.append_nil _⟩ (hw1 i hi).1 (hw1 i hi).2 _))]
      rw [show ("self.voiceover(\"".toList ++ (b ++ '"' :: ")\n".toList) :
          List Char) =
          ("self.voiceover(\"".toList ++ (b ++ ['"'])) ++ ")\n".toList from by
        simp [List.append_assoc]]
      rw [extractGo_match hm2 (append_cons_ne_nil _ _ _ _) rfl hcb]
      rw [show extractGo 0 ")\n".toList = [] from by decide]
    have hne : voSource a b ≠ "" := by
      intro h
      have h2 : ("x = 1\n".toList ++ ("self.voiceover(text=\"".toList ++
          (a ++ '"' :: (")\n".toList ++ ("self.voiceover(\"".toList ++
            (b ++ '"' :: ")\n".toList)))))) = ([] : List Char) :=
        congrArg String.toList h
      have h3 := congrArg List.length h2
      rw [List.length_append,
        show ("x = 1\n".toList : List Char).length = 6 from by decide,
        List.length_nil] at h3
      omega
    show (if voSource a b = "" then "" else
      ⟨joinSpace (extractGo 0 (voSource a b).toList)⟩) =
      (⟨collapseWs a ++ ' ' :: collapseWs b⟩ : String)
    rw [if_neg hne]
    have hlist' : extractGo 0 (voSource a b).toList =
        [collapseWs a, collapseWs b] := hlist
    rw [hlist']
    rfl
  · decide

/-- C7 witness: the theorem at the claim's concrete texts. -/
theorem extract_voiceover_script_two_calls_witness :
    ((∀ c ∈ "Hello   world".toList, isVoText c = true) ∧
     (∀ c ∈ "Second   line".toList, isVoText c = true) ∧
     collapseWs "Hello   world".toList ≠ [] ∧
     collapseWs "Second   line".toList ≠ []) ∧
    ((extract_voiceover_script
        (voSource "Hello   world".toList "Second   line".toList) =
      ⟨collapseWs "Hello   world".toList ++ ' ' ::
        collapseWs "Second   line".toList⟩) ∧
     extract_voiceover_script
        (voSource "Hello   world".toList "Second   line".toList) =
      "Hello world Second line") :=
  ⟨⟨by decide, by decide, by decide, by decide⟩,
    extract_voiceover_script_two_calls "Hello   world".toList
      "Second   line".toList (by decide) (by decide) (by decide) (by decide)⟩
